import Mathlib

/-!
# Verification of the CurateNSPond identifier resolution and merge engine

Shallow embedding of `curate_ns_pond/resolution.py`, `curate_ns_pond/merge.py`
and `curate_ns_pond/storage.py`.

Modelling conventions:
* Python strings are modelled as `List Char` (`Str`); character-class
  predicates (`isdigit`, `isspace`, `lower`, `upper`) are modelled over the
  ASCII range, which is the range the identifiers in this code base use.
* Python exceptions (`ValueError`) are modelled with `Except Str`.
* Python dicts that the code only reads through `.get`/`[...]=` are modelled
  as association lists with "latest binding wins" lookup; dicts that the code
  iterates over are modelled as lists of key/value pairs in iteration order.
* Python's stable `sorted` is modelled by `List.insertionSort` (any two
  stable sorts with respect to the same total preorder agree pointwise).
* `hashlib.sha256(...).hexdigest()[:16]` is an injective-in-intent pure
  function of the concatenated bytes; the digest function is passed as an
  explicit parameter `digest` so that theorems hold for the real SHA-256.
-/

deriving instance DecidableEq for Except

namespace CurateNSPond

/-- Python strings, modelled as lists of characters. -/
abbrev Str := List Char

/-- ASCII model of Python `str.isspace` characters stripped by `str.strip`. -/
def isSpaceB (c : Char) : Bool :=
  c.toNat == 32 || (9 ≤ c.toNat && c.toNat ≤ 13)

/-- ASCII model of Python `str.isdigit` on a single character. -/
def isDigitB (c : Char) : Bool :=
  48 ≤ c.toNat && c.toNat ≤ 57

/-- ASCII model of Python `str.lower` on a single character. -/
def lowerChar (c : Char) : Char :=
  if 65 ≤ c.toNat && c.toNat ≤ 90 then Char.ofNat (c.toNat + 32) else c

/-- ASCII model of Python `str.upper` on a single character. -/
def upperChar (c : Char) : Char :=
  if 97 ≤ c.toNat && c.toNat ≤ 122 then Char.ofNat (c.toNat - 32) else c

/-- Python `str.strip()`: remove leading and trailing whitespace. -/
def stripStr (s : Str) : Str :=
  ((s.dropWhile isSpaceB).reverse.dropWhile isSpaceB).reverse

/-- Python `str.lower()`. -/
def lowerStr (s : Str) : Str := s.map lowerChar

/-- Python `str.upper()`. -/
def upperStr (s : Str) : Str := s.map upperChar

/-- Python `str.isdigit()`: non-empty and all digits. -/
def isdigitStr (s : Str) : Bool := !s.isEmpty && s.all isDigitB

/-- Python `s.startswith(pat)` (`pat` given second). -/
def beginsWith (s pat : Str) : Bool := pat.isPrefixOf s

/-- Python `s.split(":", 1)[1]`: everything after the first colon.  All call
sites in the source are guarded by a `startswith` check that guarantees a
colon is present. -/
def afterColon (s : Str) : Str :=
  (s.dropWhile (fun c => !(c == ':'))).drop 1

/-- Python truthiness of an optional string (`None` and `""` are falsy). -/
def optTruthy : Option Str → Bool
  | none => false
  | some s => !s.isEmpty

/-- Python's stable `sorted` on strings (code-point lexicographic order,
which is `List Char`'s linear order). -/
def pySorted (l : List Str) : List Str :=
  l.insertionSort (· ≤ ·)

/-- Python `sorted(set(l))`: deduplicate, then sort. -/
def pySortedSet (l : List Str) : List Str :=
  pySorted l.eraseDups

/-- `IdentifierKind` from `resolution.py` (a `str`-valued enum). -/
inductive IdentifierKind where
  | pmid
  | pmcid
  | doi
deriving DecidableEq, Repr

/-- The `.value` string of an `IdentifierKind` member. -/
def IdentifierKind.str : IdentifierKind → Str
  | .pmid => "pmid".data
  | .pmcid => "pmcid".data
  | .doi => "doi".data

/-- Iteration order `for kind in IdentifierKind` (declaration order). -/
def kindList : List IdentifierKind := [.pmid, .pmcid, .doi]

/-- `NormalizedIdentifier` dataclass from `resolution.py`. -/
structure NormalizedIdentifier where
  kind : IdentifierKind
  value : Str
  original : Str
deriving DecidableEq, Repr

/-- `NormalizedIdentifier.hash_component`: `f"{kind.value}:{value}"`. -/
def NormalizedIdentifier.hash_component (n : NormalizedIdentifier) : Str :=
  n.kind.str ++ [':'] ++ n.value

/-- `normalize_pmid` from `resolution.py`. -/
def normalize_pmid (value : Str) : Except Str Str :=
  let candidate := stripStr value
  if candidate.isEmpty then .error ("Empty PMID provided".data)
  else if !(isdigitStr candidate) then .error ("Invalid PMID: ".data ++ value)
  else .ok candidate

/-- `normalize_pmcid` from `resolution.py`. -/
def normalize_pmcid (value : Str) : Except Str Str :=
  let c0 := upperStr (stripStr value)
  let c1 := if beginsWith c0 "PMCID:".data then afterColon c0 else c0
  let c2 := if beginsWith c1 "PMC".data then c1 else "PMC".data ++ c1
  let numberPart := c2.drop 3
  if !(isdigitStr numberPart) then .error ("Invalid PMCID: ".data ++ value)
  else .ok ("PMC".data ++ numberPart)

/-- `normalize_doi` from `resolution.py`. -/
def normalize_doi (value : Str) : Except Str Str :=
  let c0 := stripStr value
  let c1 := if beginsWith (lowerStr c0) "doi:".data then afterColon c0 else c0
  if !(c1.contains '/') then .error ("Invalid DOI: ".data ++ value)
  else .ok (lowerStr c1)

/-- `normalize_identifier` from `resolution.py`. -/
def normalize_identifier (value : Str) : Except Str NormalizedIdentifier :=
  let raw := stripStr value
  if raw.isEmpty then .error ("Identifier cannot be blank".data)
  else
    let lowered := lowerStr raw
    if beginsWith lowered "pmid:".data then
      do let v ← normalize_pmid (afterColon raw); .ok ⟨.pmid, v, value⟩
    else if beginsWith lowered "pmcid:".data || beginsWith lowered "pmc".data then
      do let v ← normalize_pmcid raw; .ok ⟨.pmcid, v, value⟩
    else if isdigitStr raw then
      do let v ← normalize_pmid raw; .ok ⟨.pmid, v, value⟩
    else if raw.contains '/' then
      do let v ← normalize_doi raw; .ok ⟨.doi, v, value⟩
    else .error ("Unrecognized identifier: ".data ++ value)

/-- `_normalize_value` from `resolution.py` (kind-directed normalization). -/
def normalize_value (kind : IdentifierKind) (value : Str) : Except Str Str :=
  match kind with
  | .pmid => normalize_pmid value
  | .pmcid => normalize_pmcid value
  | .doi => normalize_doi value

example : normalize_identifier "123456".data =
    .ok ⟨.pmid, "123456".data, "123456".data⟩ := by decide
example : normalize_identifier "pmc1234".data =
    .ok ⟨.pmcid, "PMC1234".data, "pmc1234".data⟩ := by decide
example : normalize_identifier "pmcid:PMC999".data =
    .ok ⟨.pmcid, "PMC999".data, "pmcid:PMC999".data⟩ := by decide
example : normalize_identifier "10.1000/ABC".data =
    .ok ⟨.doi, "10.1000/abc".data, "10.1000/ABC".data⟩ := by decide
example : (normalize_identifier "".data).isOk = false := by decide
example : (normalize_identifier "not an id".data).isOk = false := by decide
example : normalize_identifier "pmid: 123".data =
    .ok ⟨.pmid, "123".data, "pmid: 123".data⟩ := by decide

/-! ## Resolution engine state (`_ResolutionState` from `resolution.py`)

Python records are mutable objects with identity; we model identity with an
arena: `arena` holds every record ever created (indexed by creation number),
`live` is the Python `records` list (arena indices in creation order), and
`index` is the Python `index` dict, modelled as an association list whose
most recent binding wins. -/

/-- `ResolvedRecord` dataclass from `resolution.py`. -/
structure ResolvedRecord where
  pmid : Option Str := none
  pmcid : Option Str := none
  doi : Option Str := none
deriving DecidableEq, Repr

/-- A freshly-constructed `ResolvedRecord()`. -/
def emptyRecord : ResolvedRecord := {}

/-- `getattr(record, kind.value)`. -/
def ResolvedRecord.fieldOf (r : ResolvedRecord) : IdentifierKind → Option Str
  | .pmid => r.pmid
  | .pmcid => r.pmcid
  | .doi => r.doi

/-- `setattr(record, kind.value, v)`. -/
def ResolvedRecord.withField (r : ResolvedRecord) : IdentifierKind → Option Str → ResolvedRecord
  | .pmid, v => { r with pmid := v }
  | .pmcid, v => { r with pmcid := v }
  | .doi, v => { r with doi := v }

/-- The mutable state of `_ResolutionState`. -/
structure RState where
  arena : List ResolvedRecord
  live : List Nat
  index : List ((IdentifierKind × Str) × Nat)
deriving DecidableEq, Repr

/-- A freshly-constructed `_ResolutionState()`. -/
def RState.empty : RState := ⟨[], [], []⟩

/-- Dereference an arena index (total, defaulting to an empty record). -/
def RState.recAt (st : RState) (i : Nat) : ResolvedRecord :=
  st.arena.getD i emptyRecord

/-- `self.index.get(key)`. -/
def idxGet (st : RState) (key : IdentifierKind × Str) : Option Nat :=
  (st.index.find? (fun e => e.1 == key)).map (·.2)

/-- `self.index[key] = record`. -/
def idxSet (st : RState) (key : IdentifierKind × Str) (i : Nat) : RState :=
  { st with index := (key, i) :: st.index }

/-- Overwrite the record stored at arena index `i`. -/
def setRecAt (st : RState) (i : Nat) (r : ResolvedRecord) : RState :=
  { st with arena := st.arena.set i r }

/-- `_ResolutionState._attach`: set the field and index the pair. -/
def attachOp (st : RState) (i : Nat) (kind : IdentifierKind) (value : Str) : RState :=
  let st := setRecAt st i ((st.recAt i).withField kind (some value))
  idxSet st (kind, value) i

/-- `self.records.remove(other)`: Python `list.remove` removes the first
element *equal* to `other` (dataclass equality compares field values). -/
def removeFirstEq (arena : List ResolvedRecord) (live : List Nat)
    (r : ResolvedRecord) : List Nat :=
  match live with
  | [] => []
  | i :: rest =>
    if arena.getD i emptyRecord = r then rest
    else i :: removeFirstEq arena rest r

/-- One attribute of the field-copy loop of `_ResolutionState._merge`:
copy `other`'s truthy value when the target's own value is falsy. -/
def copyStep (other acc : ResolvedRecord) (k : IdentifierKind) :
    ResolvedRecord :=
  let v := other.fieldOf k
  if optTruthy v && !(optTruthy (acc.fieldOf k)) then acc.withField k v
  else acc

/-- The field-copy loop of `_ResolutionState._merge`: for each attribute in
order (pmid, pmcid, doi), copy `other`'s truthy value when `target`'s own
value is falsy. -/
def copyMissing (target other : ResolvedRecord) : ResolvedRecord :=
  kindList.foldl (copyStep other) target

/-- One attribute of the re-index loop of `_ResolutionState._merge`. -/
def reindexStep (t : Nat) (acc : RState) (k : IdentifierKind) :
    Except Str RState :=
  match (acc.recAt t).fieldOf k with
  | none => .ok acc
  | some s =>
    if s.isEmpty then .ok acc
    else do
      let nv ← normalize_value k s
      .ok (idxSet acc (k, nv) t)

/-- The re-index loop of `_ResolutionState._merge`: re-point the index at
`target` for each truthy field of `target` (re-normalized). -/
def reindexOp (st : RState) (t : Nat) : Except Str RState :=
  kindList.foldlM (reindexStep t) st

/-- `_ResolutionState._merge(target, other)`; the returned surviving record
is always `t`.  `normalize_value` failures (Python `ValueError`) propagate. -/
def mergeOp (st : RState) (t o : Nat) : Except Str RState :=
  if t = o then .ok st
  else
    let orec := st.recAt o
    let st1 : RState := { st with live := removeFirstEq st.arena st.live orec }
    let st2 := setRecAt st1 t (copyMissing (st1.recAt t) orec)
    reindexOp st2 t

/-- `_ResolutionState.ensure_record`. -/
def ensureRecord (st : RState) (kind : IdentifierKind) (value : Str) :
    Except Str (RState × Nat) := do
  let normalized ← normalize_value kind value
  match idxGet st (kind, normalized) with
  | some i => .ok (st, i)
  | none =>
    let i := st.arena.length
    let st' : RState := ⟨st.arena ++ [emptyRecord], st.live ++ [i], st.index⟩
    .ok (attachOp st' i kind normalized, i)

/-- `_ResolutionState.link`. -/
def linkOp (st : RState) (i : Nat) (kind : IdentifierKind) (value : Str) :
    Except Str (RState × Nat) := do
  let normalized ← normalize_value kind value
  match idxGet st (kind, normalized) with
  | none =>
    let st := attachOp st i kind normalized
    .ok (idxSet st (kind, normalized) i, i)
  | some j =>
    if j = i then .ok (st, i)
    else do
      let st ← mergeOp st j i
      let st := attachOp st j kind normalized
      .ok (idxSet st (kind, normalized) j, j)

/-! ## The resolver (`IdentifierResolver.resolve`)

The three gateway clients are external collaborators; `resolve` is a pure
function of their behaviour, so they are passed as explicit functions.  A
gateway call that raises its source error (`PMCError`, `EntrezError`,
`SemanticScholarError`) is `Except.error msg`; mappings are lists of
key/payload pairs in dict iteration order; payload fields model
`payload.get(...)` results (string or absent). -/

/-- Payload of one PMC id-converter mapping entry. -/
structure PmcPayload where
  pmid : Option Str := none
  doi : Option Str := none
deriving DecidableEq, Repr

/-- Payload of one Entrez summary mapping entry. -/
structure EntrezPayload where
  pmcid : Option Str := none
  doi : Option Str := none
deriving DecidableEq, Repr

/-- Payload returned by `SemanticScholarClient.fetch_external_ids`. -/
structure SemPayload where
  pmid : Option Str := none
  pmcid : Option Str := none
  doi : Option Str := none
deriving DecidableEq, Repr

/-- Python dict truthiness of a semantic-scholar payload: at least one key
present (`if not data: continue`). -/
def semTruthy (p : SemPayload) : Bool :=
  p.pmid.isSome || p.pmcid.isSome || p.doi.isSome

/-- The three external lookup gateways. -/
structure Gateways where
  pmcConvert : List Str → Except Str (List (Str × PmcPayload))
  entrezFetch : List Str → Except Str (List (Str × EntrezPayload))
  semanticFetch : Str → Except Str (Option SemPayload)

/-- `ResolutionResult` (the `started_at` wall-clock timestamp carries no
information about the computation and is not modelled). -/
structure ResolutionResult where
  records : List ResolvedRecord
  sources_used : List Str
  errors : List Str
deriving DecidableEq, Repr

/-- `set.add`: insert if not already present. -/
def addUsed (used : List Str) (s : Str) : List Str :=
  if used.contains s then used else used ++ [s]

/-- `sorted({ident.value for ident in identifiers if ident.kind is PMCID})`. -/
def pmcidsOf (identifiers : List NormalizedIdentifier) : List Str :=
  pySortedSet (identifiers.filterMap
    (fun n => if n.kind = .pmcid then some n.value else none))

/-- `sorted({record.pmid for record in state.records if record.pmid})`. -/
def pmidsOfState (st : RState) : List Str :=
  pySortedSet (st.live.filterMap (fun i =>
    match (st.recAt i).pmid with
    | some v => if v.isEmpty then none else some v
    | none => none))

/-- The repeated `if value: record = state.link(record, kind, value)`
pattern: link when the payload value is truthy, else keep the record. -/
def linkIf (st : RState) (r : Nat) (k : IdentifierKind) (v : Option Str) :
    Except Str (RState × Nat) :=
  if optTruthy v then linkOp st r k (v.getD []) else pure (st, r)

/-- One mapping entry of the PMC cross-reference loop. -/
def pass1Item (st : RState) (item : Str × PmcPayload) : Except Str RState := do
  let (st, r) ← ensureRecord st .pmcid item.1
  let (st, r) ← linkIf st r .pmid item.2.pmid
  let (st, _) ← linkIf st r .doi item.2.doi
  pure st

/-- The PMC cross-reference pass (`resolve`, first `if pmcids:` block). -/
def pass1 (g : Gateways) (identifiers : List NormalizedIdentifier)
    (st : RState) (used errors : List Str) :
    Except Str (RState × List Str × List Str) :=
  let pmcids := pmcidsOf identifiers
  if pmcids.isEmpty then .ok (st, used, errors)
  else
    match g.pmcConvert pmcids with
    | .error e => .ok (st, used, errors ++ [e])
    | .ok conversions =>
      let used := if conversions.isEmpty then used else addUsed used "pmc".data
      (do
        let st ← conversions.foldlM pass1Item st
        .ok (st, used, errors))

/-- One mapping entry of the Entrez summary loop. -/
def pass2Item (st : RState) (item : Str × EntrezPayload) : Except Str RState := do
  let (st, r) ← ensureRecord st .pmid item.1
  let (st, r) ← linkIf st r .pmcid item.2.pmcid
  let (st, _) ← linkIf st r .doi item.2.doi
  pure st

/-- The Entrez summary pass (`resolve`, `if pmids:` block). -/
def pass2 (g : Gateways) (st : RState) (used errors : List Str) :
    Except Str (RState × List Str × List Str) :=
  let pmids := pmidsOfState st
  if pmids.isEmpty then .ok (st, used, errors)
  else
    match g.entrezFetch pmids with
    | .error e => .ok (st, used, errors ++ [e])
    | .ok summaries =>
      let used := if summaries.isEmpty then used else addUsed used "entrez".data
      (do
        let st ← summaries.foldlM pass2Item st
        .ok (st, used, errors))

/-- Tuple comparison on `(IdentifierKind, str)` pairs: `IdentifierKind` is a
`str`-enum, so Python compares the kind's string value first. -/
def pairLeB (a b : IdentifierKind × Str) : Bool :=
  if a.1.str = b.1.str then a.2 ≤ b.2 else decide (a.1.str ≤ b.1.str)

/-- `sorted({(PMID, r.pmid) ...} | {(DOI, r.doi) ...})` over live records. -/
def semanticTargetsOf (st : RState) : List (IdentifierKind × Str) :=
  let ps : List (IdentifierKind × Str) := st.live.filterMap (fun i =>
    match (st.recAt i).pmid with
    | some v => if v.isEmpty then none else some (IdentifierKind.pmid, v)
    | none => none)
  let ds : List (IdentifierKind × Str) := st.live.filterMap (fun i =>
    match (st.recAt i).doi with
    | some v => if v.isEmpty then none else some (IdentifierKind.doi, v)
    | none => none)
  ((ps ++ ds).eraseDups).insertionSort (fun a b => pairLeB a b = true)

/-- One iteration of the per-pair Semantic Scholar loop. -/
def pass3Step (g : Gateways) (acc : RState × List Str × List Str)
    (target : IdentifierKind × Str) :
    Except Str (RState × List Str × List Str) :=
  let (st, used, errors) := acc
  if target.2.isEmpty then .ok acc
  else
    match g.semanticFetch target.2 with
    | .error e => .ok (st, used, errors ++ [e])
    | .ok none => .ok (st, used, errors)
    | .ok (some data) =>
      if !(semTruthy data) then .ok (st, used, errors)
      else do
        let used := addUsed used "semantic-scholar".data
        let (st, r) ← ensureRecord st target.1 target.2
        let (st, r) ← linkIf st r .pmid data.pmid
        let (st, r) ← linkIf st r .pmcid data.pmcid
        let (st, _) ← linkIf st r .doi data.doi
        .ok (st, used, errors)

/-- One iteration of the seeding loop. -/
def seedItem (st : RState) (n : NormalizedIdentifier) : Except Str RState := do
  let (st, _) ← ensureRecord st n.kind n.value
  pure st

/-- Seeding loop: `for identifier in identifiers: state.ensure_record(...)`. -/
def seedState (identifiers : List NormalizedIdentifier) : Except Str RState :=
  identifiers.foldlM seedItem RState.empty

/-- `IdentifierResolver.resolve`.  The result is `Except.error` exactly when
the Python method would let a `ValueError` escape. -/
def resolve (g : Gateways) (identifiers : List NormalizedIdentifier) :
    Except Str ResolutionResult := do
  let st ← seedState identifiers
  let (st, used, errors) ← pass1 g identifiers st [] []
  let (st, used, errors) ← pass2 g st used errors
  let (st, used, errors) ←
    (semanticTargetsOf st).foldlM (pass3Step g) (st, used, errors)
  .ok { records := st.live.map st.recAt, sources_used := used, errors := errors }

/-- The list comprehension `[normalize_identifier(item) for item in
identifiers]` (the first exception propagates). -/
def normalizeAll : List Str → Except Str (List NormalizedIdentifier)
  | [] => .ok []
  | x :: xs => do
    let n ← normalize_identifier x
    let ns ← normalizeAll xs
    .ok (n :: ns)

/-- `IdentifierResolver.resolve_from_strings`. -/
def resolve_from_strings (g : Gateways) (identifiers : List Str) :
    Except Str ResolutionResult := do
  let normalized ← normalizeAll identifiers
  resolve g normalized

/-! ## Offline merge engine (`merge.py` and `storage.py`)

`_read_jsonl` is modelled from the point where a line has been parsed into a
JSON object: a file is a list of `JsonRow`s (the three recognized keys, each
a string or absent/null).  Lines that fail JSON parsing only append error
strings and contribute no records; they are outside the modelled input.
Filesystem access is modelled by two total functions `fsRows` (parsed rows
of a path) and `fsBytes` (raw bytes of a path, for hashing). -/

/-- One parsed JSONL object (the three keys read by `_read_jsonl`). -/
structure JsonRow where
  pmid : Option Str := none
  pmcid : Option Str := none
  doi : Option Str := none
deriving DecidableEq, Repr

/-- `any(record.values())` — Python truthiness over the three values. -/
def rowAny (r : JsonRow) : Bool :=
  optTruthy r.pmid || optTruthy r.pmcid || optTruthy r.doi

/-- Decimal rendering of a line number. -/
def natToStr (n : Nat) : Str := (Nat.repr n).data

/-- `_read_jsonl` from `merge.py` (rows already JSON-parsed): keep rows with
at least one truthy value, emit an error line for the others. -/
def readJsonl (path : Str) (rows : List JsonRow) : List JsonRow × List Str :=
  rows.enum.foldl
    (fun (acc : List JsonRow × List Str) (p : Nat × JsonRow) =>
      if rowAny p.2 then (acc.1 ++ [p.2], acc.2)
      else (acc.1, acc.2 ++ [path ++ ":".data ++ natToStr (p.1 + 1) ++
        ": row has no recognizable identifiers".data]))
    ([], [])

/-- The per-record normalization loop of `merge_jsonl_files` (lines that
extract `pmid`/`pmcid`/`doi`, skip null/blank values, and catch
normalization `ValueError`s as error strings). -/
def normalizeRowStep (path : Str)
    (acc : List NormalizedIdentifier × List Str) (v : Option Str) :
    List NormalizedIdentifier × List Str :=
  match v with
  | none => acc
  | some s =>
    if (stripStr s).isEmpty then acc
    else
      match normalize_identifier s with
      | .ok n => (acc.1 ++ [n], acc.2)
      | .error e => (acc.1, acc.2 ++ [path ++ ": ".data ++ e])

def normalizeRow (path : Str) (row : JsonRow) :
    List NormalizedIdentifier × List Str :=
  normalizeRowStep path
    (normalizeRowStep path (normalizeRowStep path ([], []) row.pmid)
      row.pmcid) row.doi

/-- Reading and normalizing one ordered path:  returns the normalized
identifier lists of its kept records plus all error strings of the file. -/
def processPathStep (path : Str)
    (acc : List (List NormalizedIdentifier) × List Str) (row : JsonRow) :
    List (List NormalizedIdentifier) × List Str :=
  let (ids, errs) := normalizeRow path row
  if ids.isEmpty then
    (acc.1, acc.2 ++ errs ++ [path ++
      ": record discarded after normalization due to missing identifiers".data])
  else (acc.1 ++ [ids], acc.2 ++ errs)

def processPath (fsRows : Str → List JsonRow) (path : Str) :
    List (List NormalizedIdentifier) × List Str :=
  let (rows, readErrs) := readJsonl path (fsRows path)
  rows.foldl (processPathStep path) ([], readErrs)

/-! ### Union-find (`_group_identifiers`)

The Python `find` uses `dict.setdefault` plus path compression; neither
changes the value `find` returns, so `find` is modelled as a pure chase of
parent pointers with fuel (the parent list length bounds every chain). -/

/-- `parent.setdefault(key, key); parent[key]` — lookup with identity
default. -/
def parentGet (p : List (Str × Str)) (k : Str) : Str :=
  ((p.find? (fun e => e.1 == k)).map (·.2)).getD k

/-- Chase parent pointers to the root (pure version of `find`). -/
def ufFind (p : List (Str × Str)) : Nat → Str → Str
  | 0, k => k
  | fuel + 1, k =>
    let pk := parentGet p k
    if pk = k then k else ufFind p fuel pk

/-- Root of `k` with sufficient fuel. -/
def ufRoot (p : List (Str × Str)) (k : Str) : Str :=
  ufFind p (p.length + 1) k

/-- `union(a, b)`: `parent[root_b] = root_a` when roots differ. -/
def ufUnion (p : List (Str × Str)) (a b : Str) : List (Str × Str) :=
  let ra := ufRoot p a
  let rb := ufRoot p b
  if ra = rb then p else (rb, ra) :: p

/-- Union-find state of `_group_identifiers`: parent pointers, plus
`key_to_identifier` in insertion order (`setdefault` keeps the first). -/
structure UFState where
  parent : List (Str × Str)
  keyIds : List (Str × NormalizedIdentifier)
deriving Repr

/-- First phase of `_group_identifiers`: union all identifiers co-occurring
in one input record. -/
def groupStep (uf : UFState) (ids : List NormalizedIdentifier) : UFState :=
  if ids.isEmpty then uf
  else
    let keys := ids.map (·.hash_component)
    let keyIds := keys.zip ids |>.foldl
      (fun acc (p : Str × NormalizedIdentifier) =>
        if (acc.find? (fun e => e.1 == p.1)).isSome then acc
        else acc ++ [p]) uf.keyIds
    let parent := (keys.drop 1).foldl
      (fun pr k => ufUnion pr (keys.headD []) k) uf.parent
    ⟨parent, keyIds⟩

def groupIdentifiers (records : List (List NormalizedIdentifier)) : UFState :=
  records.foldl groupStep ⟨[], []⟩

/-- Per-kind sets of accumulated canonical values of one group (Python
`set`s; modelled as first-insertion lists, deduplicated on insert). -/
structure KindSets where
  pmid : List Str := []
  pmcid : List Str := []
  doi : List Str := []
deriving DecidableEq, Repr

/-- The value set of one kind. -/
def KindSets.ofKind (b : KindSets) : IdentifierKind → List Str
  | .pmid => b.pmid
  | .pmcid => b.pmcid
  | .doi => b.doi

/-- `bucket[kind].add(value)`. -/
def KindSets.addVal (b : KindSets) (k : IdentifierKind) (v : Str) : KindSets :=
  if (b.ofKind k).contains v then b
  else match k with
    | .pmid => { b with pmid := b.pmid ++ [v] }
    | .pmcid => { b with pmcid := b.pmcid ++ [v] }
    | .doi => { b with doi := b.doi ++ [v] }

/-- Second phase of `_group_identifiers`: bucket every attached identifier
under its root, in `key_to_identifier` insertion order. -/
def componentsStep (uf : UFState) (comps : List (Str × KindSets))
    (p : Str × NormalizedIdentifier) : List (Str × KindSets) :=
  let root := ufRoot uf.parent p.1
  if (comps.find? (fun q => q.1 == root)).isSome then
    comps.map (fun q =>
      if q.1 = root then (q.1, q.2.addVal p.2.kind p.2.value) else q)
  else comps ++ [(root, KindSets.addVal {} p.2.kind p.2.value)]

def componentsOf (uf : UFState) : List (Str × KindSets) :=
  uf.keyIds.foldl (componentsStep uf) []

/-- The single-quote character (Python `repr` quoting). -/
def quoteChar : Char := Char.ofNat 39

/-- Python `repr` of a list of strings, e.g. `['10.1/a', '10.1/b']`
(single-quote form, the form taken by identifier strings). -/
def reprStrList (l : List Str) : Str :=
  '[' :: (List.intercalate ", ".data
    (l.map (fun s => quoteChar :: s ++ [quoteChar]))) ++ [']']

/-- `f"Conflicting {kind.value} values encountered: {entries}"`. -/
def conflictMsg (k : IdentifierKind) (entries : List Str) : Str :=
  "Conflicting ".data ++ k.str ++ " values encountered: ".data ++
    reprStrList entries

/-- One iteration (one kind) of the per-group loop of `merge_jsonl_files`:
accumulator carries the record being built, the emitted errors, and the
collected sort tokens. -/
def buildGroupStep (b : KindSets)
    (acc : ResolvedRecord × List Str × List Str) (k : IdentifierKind) :
    ResolvedRecord × List Str × List Str :=
  let entries := pySorted (b.ofKind k)
  if entries.isEmpty then acc
  else
    let errs := if entries.length > 1 then acc.2.1 ++ [conflictMsg k entries]
      else acc.2.1
    let chosen := entries.headD []
    (acc.1.withField k (some chosen), errs,
      acc.2.2 ++ [k.str ++ [':'] ++ chosen])

/-- The per-group loop body of `merge_jsonl_files`: build the merged record,
the conflict errors of the group, and its sort key. -/
def buildGroup (root : Str) (b : KindSets) :
    ResolvedRecord × List Str × Str :=
  let r := kindList.foldl (buildGroupStep b) (emptyRecord, [], [])
  (r.1, r.2.1, (r.2.2.head?).getD root)

/-- `hash_file_contents` from `storage.py`: concatenate the bytes of the
existing files in sorted path order and digest.  `digest` abstracts
`sha256(...).hexdigest()[:16]` (a fixed pure function); every path is
assumed to exist (`merge_jsonl_files` would have failed reading otherwise).
-/
def hash_file_contents (digest : Str → Str) (fsBytes : Str → Str)
    (paths : List Str) : Str :=
  digest ((pySorted paths).foldl (fun acc p => acc ++ fsBytes p) [])

/-- `MergeOutcome` dataclass from `merge.py` (records are plain dicts with
the same three optional fields as `ResolvedRecord`). -/
structure MergeOutcome where
  records : List ResolvedRecord
  input_hash : Str
  source_files : List Str
  errors : List Str
deriving DecidableEq, Repr

/-- One ordered path of the reading/normalizing loop of
`merge_jsonl_files`. -/
def mergePathStep (fsRows : Str → List JsonRow)
    (acc : List (List NormalizedIdentifier) × List Str) (path : Str) :
    List (List NormalizedIdentifier) × List Str :=
  let (recs, errs) := processPath fsRows path
  (acc.1 ++ recs, acc.2 ++ errs)

/-- One group of the record-building loop of `merge_jsonl_files`. -/
def buildStep (bacc : List (Str × ResolvedRecord) × List Str)
    (q : Str × KindSets) : List (Str × ResolvedRecord) × List Str :=
  let (rec, gerrs, key) := buildGroup q.1 q.2
  (bacc.1 ++ [(key, rec)], bacc.2 ++ gerrs)

/-- `merge_jsonl_files` from `merge.py`. -/
def merge_jsonl_files (digest : Str → Str) (fsRows : Str → List JsonRow)
    (fsBytes : Str → Str) (paths : List Str) : Except Str MergeOutcome :=
  if paths.isEmpty then .error ("At least one JSONL file is required".data)
  else
    let ordered := pySorted paths
    let acc := ordered.foldl (mergePathStep fsRows) ([], [])
    let comps := componentsOf (groupIdentifiers acc.1)
    let built := comps.foldl buildStep ([], acc.2)
    let sortedRecs := built.1.insertionSort
      (fun a b => (a.1 : Str) ≤ b.1)
    .ok ⟨sortedRecs.map (·.2), hash_file_contents digest fsBytes paths,
      ordered, built.2⟩

/-! ## Claim C9 -/

/-- C9: `merge_jsonl_files` raises a `ValueError` when called with an empty
sequence of paths, before reading any file or producing any result. -/
theorem claim_C9_empty_paths_value_error (digest : Str → Str)
    (fsRows : Str → List JsonRow) (fsBytes : Str → Str) :
    merge_jsonl_files digest fsRows fsBytes [] =
      .error ("At least one JSONL file is required".data) := rfl

/-! ## Claim C1

The index is *not* always consistent: when `_merge` absorbs a record, the
index entries attached to the absorbed record for values that lose the field
conflict keep pointing at the removed record.  The exact operation sequence
below is the one `resolve` performs for inputs `["1", "2"]` when the Entrez
gateway maps both pmids to the same DOI; through the still-stale key a later
Semantic Scholar pass then merges into the dead record and `resolve` returns
zero records. -/

/-- The state after `ensure(pmid 1); link(r1, doi 10.1/x); ensure(pmid 2);
link(r2, doi 10.1/x)` — the link sequence of the Entrez pass for summaries
`{"1": {"doi": "10.1/x"}, "2": {"doi": "10.1/x"}}`. -/
def c1AfterOps : Except Str RState := do
  let (st, r1) ← ensureRecord RState.empty .pmid "1".data
  let (st, _) ← linkOp st r1 .doi "10.1/x".data
  let (st, r2) ← ensureRecord st .pmid "2".data
  let (st, _) ← linkOp st r2 .doi "10.1/x".data
  pure st

/-- Gateways realizing the scenario through the public `resolve`. -/
def c1Gateways : Gateways where
  pmcConvert := fun _ => .ok []
  entrezFetch := fun _ => .ok
    [("1".data, ⟨none, some "10.1/x".data⟩),
     ("2".data, ⟨none, some "10.1/x".data⟩)]
  semanticFetch := fun v =>
    if v = "1".data then .ok (some ⟨some "2".data, none, none⟩) else .ok none

/-- C1 fails on the code: after the merge triggered by the second DOI link,
the attached key `(pmid, "2")` still maps to record 1, which has been
absorbed and removed from the live list (`live = [0]`); consequently the
public `resolve` on `["1", "2"]` with these gateways silently returns an
*empty* record list.  (The spec's invariant is the evident intent of the
union-find index — `_merge` re-points the keys of the surviving record but
forgets the absorbed record's keys.) -/
theorem claim_C1_index_inconsistency_witnessed :
    (c1AfterOps.map (fun st => (idxGet st (.pmid, "2".data), st.live)) =
      .ok (some 1, [0])) ∧
    resolve c1Gateways
        [⟨.pmid, "1".data, "1".data⟩, ⟨.pmid, "2".data, "2".data⟩] =
      .ok ⟨[], ["entrez".data, "semantic-scholar".data], []⟩ := by
  constructor
  · rfl
  · rfl

/-! ## Claim C2

`resolve_from_strings` does propagate the normalizer's exception before any
gateway interaction; but `merge_jsonl_files` *catches* the normalizer's
`ValueError` per value (appending it to the outcome's error list) and
returns a result instead of raising. -/

/-- A JSONL file whose single row has the malformed pmid `"abc"`. -/
def c2FsRows : Str → List JsonRow := fun _ => [⟨some "abc".data, none, none⟩]

/-- C2 fails on the code for the merge half: merging a JSONL file containing
a malformed identifier *returns* a `MergeOutcome` (with the normalizer's
message in `errors`) instead of raising. -/
theorem claim_C2_counterexample_merge_returns :
    merge_jsonl_files id c2FsRows id ["f".data] =
      .ok ⟨[], "f".data, ["f".data],
        ["f: Unrecognized identifier: abc".data,
         "f: record discarded after normalization due to missing identifiers".data]⟩ := by
  rfl

@[simp] lemma except_bind_error {α β : Type} (e : Str)
    (f : α → Except Str β) : (Except.error e >>= f) = Except.error e := rfl

@[simp] lemma except_bind_ok {α β : Type} (a : α)
    (f : α → Except Str β) : (Except.ok a >>= f) = f a := rfl

/-- If any element of a list fails to normalize, the normalization pass of
`resolve_from_strings` fails (with the first failing element's error). -/
lemma normalizeAll_fails :
    ∀ (items : List Str), (∃ x ∈ items, (normalize_identifier x).isOk = false) →
    ∃ e, normalizeAll items = .error e := by
  intro items
  induction items with
  | nil => rintro ⟨x, hx, _⟩; cases hx
  | cons a l ih =>
    rintro ⟨x, hx, hfail⟩
    cases ha : normalize_identifier a with
    | error e => exact ⟨e, by simp [normalizeAll, ha]⟩
    | ok n =>
      rcases List.mem_cons.mp hx with rfl | hxl
      · rw [ha] at hfail; cases hfail
      · obtain ⟨e, he⟩ := ih ⟨x, hxl, hfail⟩
        refine ⟨e, ?_⟩
        simp [normalizeAll, ha, he]

/-- C2 (amended): a malformed identifier string makes
`resolve_from_strings` raise the normalizer's exception, independently of
the gateways (so before any gateway interaction) and aborting the whole
batch; `merge_jsonl_files`, by contrast, catches the normalizer's exception
per value and records it in the returned outcome's error list (see the
counterexample). -/
theorem claim_C2_failfast_amended (items : List Str)
    (h : ∃ x ∈ items, (normalize_identifier x).isOk = false) :
    (∀ g₁ g₂ : Gateways,
      resolve_from_strings g₁ items = resolve_from_strings g₂ items) ∧
    (∀ g : Gateways, ∃ e, resolve_from_strings g items = .error e) := by
  obtain ⟨e, he⟩ := normalizeAll_fails items h
  constructor
  · intro g₁ g₂
    simp [resolve_from_strings, he]
  · intro g
    exact ⟨e, by simp [resolve_from_strings, he]⟩

/-- Witness for C2 (amended) at the concrete malformed input `"abc"`. -/
theorem claim_C2_failfast_amended_witness :
    (∀ g₁ g₂ : Gateways,
      resolve_from_strings g₁ ["abc".data] = resolve_from_strings g₂ ["abc".data]) ∧
    (∀ g : Gateways, ∃ e, resolve_from_strings g ["abc".data] = .error e) :=
  claim_C2_failfast_amended ["abc".data] ⟨"abc".data, by decide, by decide⟩

/-! ## Claim C8 (counterexample half)

`resolve` records a source only when the successful call's payload is
*truthy*: an empty PMC/Entrez mapping or a null/empty Semantic Scholar
payload leaves `sources_used` unchanged. -/

/-- Gateways that all succeed with empty payloads. -/
def c8Gateways : Gateways where
  pmcConvert := fun _ => .ok []
  entrezFetch := fun _ => .ok []
  semanticFetch := fun _ => .ok none

/-- C8 fails on the code: for input `PMC1` the PMC gateway call succeeds
(returning an empty mapping) yet `sources_used` stays empty — `"pmc"` is
not recorded. -/
theorem claim_C8_counterexample_empty_success_not_recorded :
    c8Gateways.pmcConvert (pmcidsOf [⟨.pmcid, "PMC1".data, "PMC1".data⟩]) =
        .ok [] ∧
    resolve c8Gateways [⟨.pmcid, "PMC1".data, "PMC1".data⟩] =
      .ok ⟨[⟨none, some "PMC1".data, none⟩], [], []⟩ := ⟨rfl, rfl⟩

/-! ## Claim C3: groundwork on characters and strings -/

lemma char_toNat_ofNat {n : Nat} (h : n < 55296) : (Char.ofNat n).toNat = n := by
  have hv : n.isValidChar := Or.inl h
  simp [Char.ofNat, dif_pos hv, Char.ofNatAux, Char.toNat, UInt32.toNat,
    BitVec.toNat_ofNatLt]

lemma lowerChar_of_not_upper {c : Char} (h : ¬(65 ≤ c.toNat ∧ c.toNat ≤ 90)) :
    lowerChar c = c := by
  unfold lowerChar
  have h1 : (65 ≤ c.toNat && c.toNat ≤ 90) = false := by
    rcases Classical.em (65 ≤ c.toNat) with h65 | h65
    · have : ¬(c.toNat ≤ 90) := fun hle => h ⟨h65, hle⟩
      simp [this]
    · simp [h65]
  rw [h1]; simp

lemma lowerChar_idem (c : Char) : lowerChar (lowerChar c) = lowerChar c := by
  by_cases h : 65 ≤ c.toNat ∧ c.toNat ≤ 90
  · have h1 : lowerChar c = Char.ofNat (c.toNat + 32) := by
      unfold lowerChar
      rw [if_pos (by simp [h.1, h.2])]
    have h2 : (Char.ofNat (c.toNat + 32)).toNat = c.toNat + 32 :=
      char_toNat_ofNat (by omega)
    rw [h1, lowerChar_of_not_upper (by rw [h2]; omega)]
  · rw [lowerChar_of_not_upper h, lowerChar_of_not_upper h]

lemma isDigitB_iff {c : Char} : isDigitB c = true ↔ 48 ≤ c.toNat ∧ c.toNat ≤ 57 := by
  simp [isDigitB]

lemma lowerChar_digit {c : Char} (h : isDigitB c = true) : lowerChar c = c := by
  rcases isDigitB_iff.mp h with ⟨h1, h2⟩
  exact lowerChar_of_not_upper (by omega)

lemma isSpaceB_digit_false {c : Char} (h : isDigitB c = true) :
    isSpaceB c = false := by
  rcases isDigitB_iff.mp h with ⟨h1, h2⟩
  simp [isSpaceB]
  omega

lemma map_eq_self_of_fixed {f : Char → Char} :
    ∀ {l : Str}, (∀ c ∈ l, f c = c) → l.map f = l
  | [], _ => rfl
  | c :: cs, h => by
    simp only [List.map_cons, h c (by simp)]
    rw [map_eq_self_of_fixed (fun d hd => h d (by simp [hd]))]

lemma dropWhile_eq_self_of_not {p : Char → Bool} :
    ∀ {l : Str}, (∀ c ∈ l, p c = false) → l.dropWhile p = l
  | [], _ => rfl
  | c :: cs, h => by
    rw [List.dropWhile_cons, if_neg (by simp [h c (by simp)])]

lemma stripStr_eq_self {l : Str} (h : ∀ c ∈ l, isSpaceB c = false) :
    stripStr l = l := by
  unfold stripStr
  rw [dropWhile_eq_self_of_not h,
    dropWhile_eq_self_of_not (fun c hc => h c (List.mem_reverse.mp hc)),
    List.reverse_reverse]

lemma lowerStr_idem (l : Str) : lowerStr (lowerStr l) = lowerStr l := by
  unfold lowerStr
  rw [List.map_map]
  exact List.map_congr_left (fun c _ => lowerChar_idem c)

lemma beginsWith_false_of_head_ne {c p : Char} {cs ps : Str}
    (h : (p == c) = false) : beginsWith (c :: cs) (p :: ps) = false := by
  simp only [beginsWith, List.isPrefixOf]
  simp [h]

/-! ### Shape of normalizer outputs -/

lemma normalize_pmid_ok {w v : Str} (h : normalize_pmid w = .ok v) :
    isdigitStr v = true := by
  unfold normalize_pmid at h
  dsimp only at h
  split at h
  · cases h
  · split at h
    · cases h
    · next h2 =>
        cases h
        simpa using h2

lemma normalize_pmcid_ok {w v : Str} (h : normalize_pmcid w = .ok v) :
    ∃ ds, v = "PMC".data ++ ds ∧ isdigitStr ds = true := by
  unfold normalize_pmcid at h
  dsimp only at h
  split at h
  all_goals try split at h
  all_goals try split at h
  all_goals rename_i hg
  all_goals cases h
  all_goals exact ⟨_, rfl, by simpa using hg⟩

lemma normalize_doi_ok {w v : Str} (h : normalize_doi w = .ok v) :
    v.contains '/' = true ∧ lowerStr v = v := by
  unfold normalize_doi at h
  dsimp only at h
  split at h
  all_goals try split at h
  all_goals rename_i hg
  all_goals cases h
  all_goals refine ⟨?_, lowerStr_idem _⟩
  all_goals exact List.elem_iff.mpr (List.mem_map.mpr
    ⟨'/', List.elem_iff.mp (by simpa using hg), by decide⟩)

/-- Any successful `normalize_identifier` output value is, per kind: all
digits (pmid); `PMC` + digits (pmcid); lowercase-fixed and containing `/`
(doi). -/
lemma normalize_identifier_ok_shape {x : Str} {n : NormalizedIdentifier}
    (h : normalize_identifier x = .ok n) :
    (n.kind = .pmid ∧ isdigitStr n.value = true) ∨
    (n.kind = .pmcid ∧ ∃ ds, n.value = "PMC".data ++ ds ∧ isdigitStr ds = true) ∨
    (n.kind = .doi ∧ n.value.contains '/' = true ∧ lowerStr n.value = n.value) := by
  unfold normalize_identifier at h
  dsimp only at h
  split at h
  · cases h
  · split at h
    · cases hp : normalize_pmid (afterColon (stripStr x)) with
      | error e => rw [hp] at h; cases h
      | ok v =>
        rw [hp] at h
        cases h
        exact Or.inl ⟨rfl, normalize_pmid_ok hp⟩
    · split at h
      · cases hp : normalize_pmcid (stripStr x) with
        | error e => rw [hp] at h; cases h
        | ok v =>
          rw [hp] at h
          cases h
          exact Or.inr (Or.inl ⟨rfl, normalize_pmcid_ok hp⟩)
      · split at h
        · cases hp : normalize_pmid (stripStr x) with
          | error e => rw [hp] at h; cases h
          | ok v =>
            rw [hp] at h
            cases h
            exact Or.inl ⟨rfl, normalize_pmid_ok hp⟩
        · split at h
          · cases hp : normalize_doi (stripStr x) with
            | error e => rw [hp] at h; cases h
            | ok v =>
              rw [hp] at h
              cases h
              exact Or.inr (Or.inr ⟨rfl, normalize_doi_ok hp⟩)
          · cases h

/-! ### Re-normalization of canonical values -/

lemma upperChar_of_not_lower {c : Char} (h : ¬(97 ≤ c.toNat ∧ c.toNat ≤ 122)) :
    upperChar c = c := by
  unfold upperChar
  have h1 : (97 ≤ c.toNat && c.toNat ≤ 122) = false := by
    rcases Classical.em (97 ≤ c.toNat) with h97 | h97
    · have : ¬(c.toNat ≤ 122) := fun hle => h ⟨h97, hle⟩
      simp [this]
    · simp [h97]
  rw [h1]; simp

lemma upperChar_digit {c : Char} (h : isDigitB c = true) : upperChar c = c := by
  rcases isDigitB_iff.mp h with ⟨h1, h2⟩
  exact upperChar_of_not_lower (by omega)

lemma head_ne_of_digit {c p : Char} (hc : isDigitB c = true)
    (hp : isDigitB p = false) : (p == c) = false := by
  rw [beq_eq_false_iff_ne]
  intro he
  subst he
  rw [hc] at hp
  cases hp

lemma beginsWith_cons (c p : Char) (cs ps : Str) :
    beginsWith (c :: cs) (p :: ps) = ((p == c) && beginsWith cs ps) := rfl

lemma beginsWith_nil (s : Str) : beginsWith s [] = true := by cases s <;> rfl

/-- Re-normalizing an all-digit canonical pmid value reproduces it. -/
lemma renormalize_pmid {v : Str} (h : isdigitStr v = true) :
    normalize_identifier v = .ok ⟨.pmid, v, v⟩ := by
  have h' := h
  unfold isdigitStr at h'
  rw [Bool.and_eq_true] at h'
  obtain ⟨hne, hall⟩ := h'
  have hallm : ∀ c ∈ v, isDigitB c = true := List.all_eq_true.mp hall
  have hempty : v.isEmpty = false := by simpa using hne
  have hstrip : stripStr v = v :=
    stripStr_eq_self (fun c hc => isSpaceB_digit_false (hallm c hc))
  have hlower : lowerStr v = v :=
    map_eq_self_of_fixed (fun c hc => lowerChar_digit (hallm c hc))
  cases v with
  | nil => cases hempty
  | cons c cs =>
    have hc : isDigitB c = true := hallm c (by simp)
    have hp1 : beginsWith (c :: cs) "pmid:".data = false :=
      beginsWith_false_of_head_ne (head_ne_of_digit hc (by decide))
    have hp2 : beginsWith (c :: cs) "pmcid:".data = false :=
      beginsWith_false_of_head_ne (head_ne_of_digit hc (by decide))
    have hp3 : beginsWith (c :: cs) "pmc".data = false :=
      beginsWith_false_of_head_ne (head_ne_of_digit hc (by decide))
    unfold normalize_identifier normalize_pmid
    dsimp only
    rw [hstrip, hlower]
    simp [hempty, hp1, hp2, hp3, h, hstrip]

/-- Re-normalizing a canonical pmcid value `PMC<digits>` reproduces it. -/
lemma renormalize_pmcid {ds : Str} (h : isdigitStr ds = true) :
    normalize_identifier ("PMC".data ++ ds) =
      .ok ⟨.pmcid, "PMC".data ++ ds, "PMC".data ++ ds⟩ := by
  have h' := h
  unfold isdigitStr at h'
  rw [Bool.and_eq_true] at h'
  obtain ⟨hne, hall⟩ := h'
  have hallm : ∀ c ∈ ds, isDigitB c = true := List.all_eq_true.mp hall
  have hnonspace : ∀ c ∈ "PMC".data ++ ds, isSpaceB c = false := by
    intro c hcmem
    rcases List.mem_append.mp hcmem with hm | hm
    · fin_cases hm <;> decide
    · exact isSpaceB_digit_false (hallm c hm)
  have hstrip : stripStr ("PMC".data ++ ds) = "PMC".data ++ ds :=
    stripStr_eq_self hnonspace
  have hupper : upperStr ("PMC".data ++ ds) = "PMC".data ++ ds := by
    unfold upperStr
    rw [List.map_append,
      map_eq_self_of_fixed (fun c hcm => upperChar_digit (hallm c hcm)),
      (by decide : List.map upperChar "PMC".data = "PMC".data)]
  have hlower : lowerStr ("PMC".data ++ ds) = "pmc".data ++ ds := by
    unfold lowerStr
    rw [List.map_append,
      map_eq_self_of_fixed (fun c hcm => lowerChar_digit (hallm c hcm)),
      (by decide : List.map lowerChar "PMC".data = "pmc".data)]
  cases ds with
  | nil => cases (by simpa using hne : ([] : Str).isEmpty = false)
  | cons d ds' =>
    have hd : isDigitB d = true := hallm d (by simp)
    have hid : (('i' : Char) == d) = false := head_ne_of_digit hd (by decide)
    have hId : (('I' : Char) == d) = false := head_ne_of_digit hd (by decide)
    have hempty : (("PMC".data ++ d :: ds') : Str).isEmpty = false := by simp
    have hg1 : beginsWith ("pmc".data ++ d :: ds') "pmid:".data = false := by
      simp [beginsWith_cons]
    have hg2 : beginsWith ("pmc".data ++ d :: ds') "pmcid:".data = false := by
      simp [beginsWith_cons, hid]
    have hg3 : beginsWith ("pmc".data ++ d :: ds') "pmc".data = true := by
      simp [beginsWith_cons, beginsWith]
    have hg4 : beginsWith ("PMC".data ++ d :: ds') "PMCID:".data = false := by
      simp [beginsWith_cons, hId]
    have hg5 : beginsWith ("PMC".data ++ d :: ds') "PMC".data = true := by
      simp [beginsWith_cons, beginsWith]
    unfold normalize_identifier normalize_pmcid
    dsimp only
    simp only [hstrip, hupper, hlower]
    simp [hempty, beginsWith_cons, beginsWith_nil, hid, hId, h,
      (by decide : (('i' : Char) == 'c') = false),
      (show List.drop 3 ('P' :: 'M' :: 'C' :: d :: ds') = d :: ds' from rfl)]

/-- Re-normalizing a canonical doi value reproduces it, provided the value
is trimmed and does not begin with one of the dispatch prefixes. -/
lemma renormalize_doi {v : Str} (hc : v.contains '/' = true)
    (hl : lowerStr v = v) (hstrip : stripStr v = v)
    (h1 : beginsWith v "pmid:".data = false)
    (h2 : beginsWith v "pmcid:".data = false)
    (h3 : beginsWith v "pmc".data = false)
    (h4 : beginsWith v "doi:".data = false) :
    normalize_identifier v = .ok ⟨.doi, v, v⟩ := by
  have hmem : ('/' : Char) ∈ v := List.elem_iff.mp hc
  have hne : v.isEmpty = false := by
    cases v with
    | nil => cases hmem
    | cons a l => rfl
  have hall : v.all isDigitB = false := by
    cases hb : v.all isDigitB with
    | false => rfl
    | true => exact absurd (List.all_eq_true.mp hb '/' hmem) (by decide)
  have hdig : isdigitStr v = false := by
    unfold isdigitStr
    rw [hall, Bool.and_false]
  unfold normalize_identifier normalize_doi
  dsimp only
  simp only [hstrip, hl]
  simp [hne, h1, h2, h3, h4, hdig, hc, hmem, hl]

/-! ## Claim C3

Normalization is *not* idempotent on all valid inputs: a DOI whose canonical
value begins with a dispatch prefix re-dispatches to another kind on
re-normalization.  `"doi:PMC1/2"` normalizes to the DOI value `"pmc1/2"`,
and normalizing `"pmc1/2"` takes the PMCID branch and raises `ValueError`. -/

/-- C3 fails on the code: `normalize_identifier "doi:PMC1/2"` succeeds with
canonical value `"pmc1/2"`, but normalizing that canonical value fails. -/
theorem claim_C3_counterexample_not_idempotent :
    normalize_identifier "doi:PMC1/2".data =
      .ok ⟨.doi, "pmc1/2".data, "doi:PMC1/2".data⟩ ∧
    (normalize_identifier "pmc1/2".data).isOk = false := by
  constructor
  · rfl
  · rfl

/-- C3 (amended): idempotence of normalization holds for every valid input
of kind PMID or PMCID; for kind DOI it holds provided the canonical value is
whitespace-trimmed and does not begin with `"pmid:"`, `"pmcid:"`, `"pmc"`,
or `"doi:"` (otherwise re-normalization may re-dispatch, fail, or change
the value, as in the counterexample). -/
theorem claim_C3_idempotence_amended (x : Str) (n : NormalizedIdentifier)
    (h : normalize_identifier x = .ok n)
    (hdoi : n.kind = .doi → stripStr n.value = n.value ∧
      beginsWith n.value "pmid:".data = false ∧
      beginsWith n.value "pmcid:".data = false ∧
      beginsWith n.value "pmc".data = false ∧
      beginsWith n.value "doi:".data = false) :
    normalize_identifier n.value = .ok ⟨n.kind, n.value, n.value⟩ := by
  rcases normalize_identifier_ok_shape h with ⟨hk, hd⟩ | ⟨hk, ds, hv, hd⟩ |
    ⟨hk, hc, hl⟩
  · rw [hk]
    exact renormalize_pmid hd
  · rw [hk, hv]
    exact renormalize_pmcid hd
  · rw [hk]
    obtain ⟨h1, h2, h3, h4, h5⟩ := hdoi hk
    exact renormalize_doi hc hl h1 h2 h3 h4 h5

/-- Witness for C3 (amended) at the concrete input `"10.1000/ABC"`. -/
theorem claim_C3_idempotence_amended_witness :
    normalize_identifier "10.1000/abc".data =
      .ok ⟨.doi, "10.1000/abc".data, "10.1000/abc".data⟩ :=
  claim_C3_idempotence_amended "10.1000/ABC".data
    ⟨.doi, "10.1000/abc".data, "10.1000/ABC".data⟩ (by decide)
    (fun _ => by exact ⟨by decide, by decide, by decide, by decide, by decide⟩)

/-! ## Claim C6: groundwork on the per-group loop -/

lemma fieldOf_withField_same (r : ResolvedRecord) (k : IdentifierKind)
    (v : Option Str) : (r.withField k v).fieldOf k = v := by
  cases k <;> rfl

lemma fieldOf_withField_ne (r : ResolvedRecord) {k k' : IdentifierKind}
    (v : Option Str) (h : k' ≠ k) :
    (r.withField k' v).fieldOf k = r.fieldOf k := by
  cases k <;> cases k' <;> first | rfl | exact absurd rfl h

lemma fieldOf_emptyRecord (k : IdentifierKind) :
    emptyRecord.fieldOf k = none := by
  cases k <;> rfl

/-- Conflict messages of distinct kinds are distinct strings. -/
lemma conflictMsg_kind_inj {k1 k2 : IdentifierKind} {e1 e2 : List Str}
    (h : conflictMsg k1 e1 = conflictMsg k2 e2) : k1 = k2 := by
  cases k1 <;> cases k2 <;> first
    | rfl
    | (exfalso
       simp [conflictMsg, IdentifierKind.str] at h)

lemma pySorted_sorted (l : List Str) : List.Sorted (· ≤ ·) (pySorted l) :=
  List.sorted_insertionSort _ l

lemma pySorted_perm (l : List Str) : (pySorted l).Perm l :=
  List.perm_insertionSort _ l

lemma headD_le_of_sorted {l : List Str} (hs : List.Sorted (· ≤ ·) l)
    {w : Str} (hw : w ∈ l) : l.headD [] ≤ w := by
  cases l with
  | nil => cases hw
  | cons a t =>
    rcases List.mem_cons.mp hw with rfl | hwt
    · exact le_refl _
    · exact (List.sorted_cons.mp hs).1 w hwt

lemma headD_mem {l : List Str} (h : l ≠ []) : l.headD [] ∈ l := by
  cases l with
  | nil => exact absurd rfl h
  | cons a t => simp

lemma buildGroupStep_errors (b : KindSets)
    (acc : ResolvedRecord × List Str × List Str) (k : IdentifierKind) :
    (buildGroupStep b acc k).2.1 = acc.2.1 ++
      (if 1 < (pySorted (b.ofKind k)).length then
        [conflictMsg k (pySorted (b.ofKind k))] else []) := by
  unfold buildGroupStep
  dsimp only
  split_ifs with h1 h2 h3 <;> simp_all [List.isEmpty_iff]

lemma buildGroupStep_fieldOf_ne (b : KindSets)
    (acc : ResolvedRecord × List Str × List Str) {k k' : IdentifierKind}
    (h : k' ≠ k) :
    (buildGroupStep b acc k').1.fieldOf k = acc.1.fieldOf k := by
  unfold buildGroupStep
  dsimp only
  split_ifs <;> first | rfl | exact fieldOf_withField_ne _ _ h

lemma buildGroupStep_fieldOf_same (b : KindSets)
    (acc : ResolvedRecord × List Str × List Str) (k : IdentifierKind)
    (hne : (pySorted (b.ofKind k)).isEmpty = false) :
    (buildGroupStep b acc k).1.fieldOf k =
      some ((pySorted (b.ofKind k)).headD []) := by
  unfold buildGroupStep
  dsimp only
  rw [if_neg (by simp [hne])]
  exact fieldOf_withField_same _ _ _

lemma buildGroup_errors (root : Str) (b : KindSets) :
    (buildGroup root b).2.1 =
      (if 1 < (pySorted (b.ofKind .pmid)).length then
        [conflictMsg .pmid (pySorted (b.ofKind .pmid))] else []) ++
      (if 1 < (pySorted (b.ofKind .pmcid)).length then
        [conflictMsg .pmcid (pySorted (b.ofKind .pmcid))] else []) ++
      (if 1 < (pySorted (b.ofKind .doi)).length then
        [conflictMsg .doi (pySorted (b.ofKind .doi))] else []) := by
  show (kindList.foldl (buildGroupStep b) (emptyRecord, [], [])).2.1 = _
  unfold kindList
  rw [List.foldl_cons, List.foldl_cons, List.foldl_cons, List.foldl_nil,
    buildGroupStep_errors, buildGroupStep_errors, buildGroupStep_errors]
  simp [List.append_assoc]

lemma buildGroupStep_fieldOf_empty (b : KindSets)
    (acc : ResolvedRecord × List Str × List Str) (k : IdentifierKind)
    (hE : (pySorted (b.ofKind k)).isEmpty = true) :
    (buildGroupStep b acc k).1.fieldOf k = acc.1.fieldOf k := by
  unfold buildGroupStep
  dsimp only
  rw [if_pos hE]

lemma buildGroup_fieldOf (root : Str) (b : KindSets) (k : IdentifierKind) :
    (buildGroup root b).1.fieldOf k =
      if (pySorted (b.ofKind k)).isEmpty then none
      else some ((pySorted (b.ofKind k)).headD []) := by
  show (kindList.foldl (buildGroupStep b) (emptyRecord, [], [])).1.fieldOf k = _
  unfold kindList
  rw [List.foldl_cons, List.foldl_cons, List.foldl_cons, List.foldl_nil]
  cases hE : (pySorted (b.ofKind k)).isEmpty with
  | true =>
    rw [if_pos rfl]
    cases k
    · rw [buildGroupStep_fieldOf_ne _ _ (by decide),
        buildGroupStep_fieldOf_ne _ _ (by decide),
        buildGroupStep_fieldOf_empty _ _ _ hE]
      exact fieldOf_emptyRecord _
    · rw [buildGroupStep_fieldOf_ne _ _ (by decide),
        buildGroupStep_fieldOf_empty _ _ _ hE,
        buildGroupStep_fieldOf_ne _ _ (by decide)]
      exact fieldOf_emptyRecord _
    · rw [buildGroupStep_fieldOf_empty _ _ _ hE,
        buildGroupStep_fieldOf_ne _ _ (by decide),
        buildGroupStep_fieldOf_ne _ _ (by decide)]
      exact fieldOf_emptyRecord _
  | false =>
    rw [if_neg (by decide)]
    cases k
    · rw [buildGroupStep_fieldOf_ne _ _ (by decide),
        buildGroupStep_fieldOf_ne _ _ (by decide),
        buildGroupStep_fieldOf_same _ _ _ hE]
    · rw [buildGroupStep_fieldOf_ne _ _ (by decide),
        buildGroupStep_fieldOf_same _ _ _ hE]
    · rw [buildGroupStep_fieldOf_same _ _ _ hE]

lemma count_conflictMsg_ite_other {k k' : IdentifierKind} (h : k ≠ k')
    (e e' : List Str) (c : Prop) [Decidable c] :
    List.count (conflictMsg k e) (if c then [conflictMsg k' e'] else []) = 0 := by
  split_ifs
  · have hne : (conflictMsg k' e' == conflictMsg k e) = false :=
      beq_eq_false_iff_ne.mpr (fun hc => h (conflictMsg_kind_inj hc.symm))
    simp [List.count_cons, hne]
  · rfl

lemma not_mem_conflictMsg_ite_other {k k' : IdentifierKind} (h : k ≠ k')
    (e e' : List Str) (c : Prop) [Decidable c] :
    conflictMsg k e ∉ (if c then [conflictMsg k' e'] else []) := by
  split_ifs
  · intro hmem
    rcases List.mem_singleton.mp hmem with hc
    exact h (conflictMsg_kind_inj hc)
  · simp

/-- C6: for every group produced by the offline merge and each identifier
kind: with more than one accumulated distinct value, exactly one error
string naming that kind and the conflicting values is emitted by the
group's loop iteration and the merged record's field is the
lexicographically smallest accumulated value; with exactly one accumulated
value, that value is used and no conflict error for that kind is emitted. -/
theorem claim_C6_merge_conflict_policy
    (rows : List (List NormalizedIdentifier)) (root : Str) (b : KindSets)
    (k : IdentifierKind)
    (hmem : (root, b) ∈ componentsOf (groupIdentifiers rows)) :
    (1 < (pySorted (b.ofKind k)).length →
      List.count (conflictMsg k (pySorted (b.ofKind k)))
        (buildGroup root b).2.1 = 1 ∧
      (buildGroup root b).1.fieldOf k = some ((pySorted (b.ofKind k)).headD []) ∧
      (pySorted (b.ofKind k)).headD [] ∈ b.ofKind k ∧
      ∀ w ∈ b.ofKind k, (pySorted (b.ofKind k)).headD [] ≤ w) ∧
    ((pySorted (b.ofKind k)).length = 1 →
      (buildGroup root b).1.fieldOf k = some ((pySorted (b.ofKind k)).headD []) ∧
      (pySorted (b.ofKind k)).headD [] ∈ b.ofKind k ∧
      ∀ vs, conflictMsg k vs ∉ (buildGroup root b).2.1) := by
  have hne_of_len : ∀ n, 0 < n → (pySorted (b.ofKind k)).length = n →
      (pySorted (b.ofKind k)).isEmpty = false := by
    intro n hn hlen
    cases hE : (pySorted (b.ofKind k)).isEmpty
    · rfl
    · rw [List.isEmpty_iff] at hE
      rw [hE] at hlen
      simp at hlen
      omega
  have hfield : ∀ (hE : (pySorted (b.ofKind k)).isEmpty = false),
      (buildGroup root b).1.fieldOf k =
        some ((pySorted (b.ofKind k)).headD []) := by
    intro hE
    rw [buildGroup_fieldOf, hE]
    simp
  have hmemhead : ∀ (hE : (pySorted (b.ofKind k)).isEmpty = false),
      (pySorted (b.ofKind k)).headD [] ∈ b.ofKind k := by
    intro hE
    have hnil : pySorted (b.ofKind k) ≠ [] := by
      intro hcon
      rw [hcon] at hE
      cases hE
    exact (pySorted_perm (b.ofKind k)).mem_iff.mp (headD_mem hnil)
  constructor
  · intro hlen
    have hE : (pySorted (b.ofKind k)).isEmpty = false :=
      hne_of_len _ (by omega) rfl
    refine ⟨?_, hfield hE, hmemhead hE, ?_⟩
    · rw [buildGroup_errors]
      have hself : List.count (conflictMsg k (pySorted (b.ofKind k)))
          (if 1 < (pySorted (b.ofKind k)).length then
            [conflictMsg k (pySorted (b.ofKind k))] else []) = 1 := by
        rw [if_pos hlen]
        simp
      cases k
      · rw [List.count_append, List.count_append, hself,
          count_conflictMsg_ite_other (by decide) _ _ _,
          count_conflictMsg_ite_other (by decide) _ _ _]
      · rw [List.count_append, List.count_append, hself,
          count_conflictMsg_ite_other (by decide) _ _ _,
          count_conflictMsg_ite_other (by decide) _ _ _]
      · rw [List.count_append, List.count_append, hself,
          count_conflictMsg_ite_other (by decide) _ _ _,
          count_conflictMsg_ite_other (by decide) _ _ _]
    · intro w hw
      exact headD_le_of_sorted (pySorted_sorted _)
        ((pySorted_perm _).mem_iff.mpr hw)
  · intro hlen
    have hE : (pySorted (b.ofKind k)).isEmpty = false :=
      hne_of_len 1 (by omega) hlen
    refine ⟨hfield hE, hmemhead hE, ?_⟩
    intro vs hmemv
    rw [buildGroup_errors] at hmemv
    have hselfnil : (if 1 < (pySorted (b.ofKind k)).length then
        [conflictMsg k (pySorted (b.ofKind k))] else []) = [] := by
      rw [if_neg (by omega)]
    rcases List.mem_append.mp hmemv with hmv | hmv
    · rcases List.mem_append.mp hmv with hmv2 | hmv2
      · cases k
        · rw [hselfnil] at hmv2
          cases hmv2
        · exact not_mem_conflictMsg_ite_other (by decide) vs _ _ hmv2
        · exact not_mem_conflictMsg_ite_other (by decide) vs _ _ hmv2
      · cases k
        · exact not_mem_conflictMsg_ite_other (by decide) vs _ _ hmv2
        · rw [hselfnil] at hmv2
          cases hmv2
        · exact not_mem_conflictMsg_ite_other (by decide) vs _ _ hmv2
    · cases k
      · exact not_mem_conflictMsg_ite_other (by decide) vs _ _ hmv
      · exact not_mem_conflictMsg_ite_other (by decide) vs _ _ hmv
      · rw [hselfnil] at hmv
        cases hmv

/-- The conflicting-DOI group of the spec's conflict-detection example. -/
def c6Bucket : KindSets :=
  { pmid := ["123".data], pmcid := [],
    doi := ["10.1/a".data, "10.1/b".data] }

/-- Witness for C6 at the spec's conflict-detection example (two rows
sharing pmid `123` with DOIs `10.1/A` and `10.1/B`), for the doi kind. -/
theorem claim_C6_merge_conflict_policy_witness :
    (1 < (pySorted (c6Bucket.ofKind .doi)).length →
      List.count (conflictMsg .doi (pySorted (c6Bucket.ofKind .doi)))
        (buildGroup "pmid:123".data c6Bucket).2.1 = 1 ∧
      (buildGroup "pmid:123".data c6Bucket).1.fieldOf .doi =
        some ((pySorted (c6Bucket.ofKind .doi)).headD []) ∧
      (pySorted (c6Bucket.ofKind .doi)).headD [] ∈ c6Bucket.ofKind .doi ∧
      ∀ w ∈ c6Bucket.ofKind .doi,
        (pySorted (c6Bucket.ofKind .doi)).headD [] ≤ w) ∧
    ((pySorted (c6Bucket.ofKind .doi)).length = 1 →
      (buildGroup "pmid:123".data c6Bucket).1.fieldOf .doi =
        some ((pySorted (c6Bucket.ofKind .doi)).headD []) ∧
      (pySorted (c6Bucket.ofKind .doi)).headD [] ∈ c6Bucket.ofKind .doi ∧
      ∀ vs, conflictMsg .doi vs ∉ (buildGroup "pmid:123".data c6Bucket).2.1) :=
  claim_C6_merge_conflict_policy
    [[⟨.pmid, "123".data, "123".data⟩, ⟨.doi, "10.1/a".data, "10.1/A".data⟩],
     [⟨.pmid, "123".data, "123".data⟩, ⟨.doi, "10.1/b".data, "10.1/B".data⟩]]
    "pmid:123".data c6Bucket .doi (by decide)

/-! ## Claim C4: order independence of merge -/

/-- Sorting is invariant under permutation of the input (the order is total
and antisymmetric, and any two sorted permutations of the same list are
equal). -/
lemma pySorted_eq_of_perm {p1 p2 : List Str} (h : p1.Perm p2) :
    pySorted p1 = pySorted p2 :=
  List.eq_of_perm_of_sorted
    ((pySorted_perm p1).trans (h.trans (pySorted_perm p2).symm))
    (pySorted_sorted p1) (pySorted_sorted p2)

/-- C4: permuting the path sequence passed to `merge_jsonl_files` leaves the
entire outcome unchanged (in particular the records list, element for
element in the same order, and the input hash), and `source_files` is
always in lexicographic path order. -/
theorem claim_C4_merge_order_independence
    (digest : Str → Str) (fsRows : Str → List JsonRow) (fsBytes : Str → Str)
    (p1 p2 : List Str) (hperm : p1.Perm p2) :
    merge_jsonl_files digest fsRows fsBytes p1 =
      merge_jsonl_files digest fsRows fsBytes p2 ∧
    (∀ o, merge_jsonl_files digest fsRows fsBytes p1 = .ok o →
      List.Sorted (· ≤ ·) o.source_files) := by
  have hord : pySorted p1 = pySorted p2 := pySorted_eq_of_perm hperm
  have hhash : hash_file_contents digest fsBytes p1 =
      hash_file_contents digest fsBytes p2 := by
    unfold hash_file_contents
    rw [hord]
  by_cases hp : p1 = []
  · subst hp
    have hp2 : p2 = [] := hperm.symm.eq_nil
    subst hp2
    exact ⟨rfl, fun o ho => by cases ho⟩
  · have hp2 : p2 ≠ [] := fun hc => hp (by rw [hc] at hperm; exact hperm.eq_nil)
    constructor
    · unfold merge_jsonl_files
      rw [if_neg (by simp [List.isEmpty_iff, hp]),
        if_neg (by simp [List.isEmpty_iff, hp2])]
      dsimp only
      rw [hord, hhash]
    · intro o ho
      unfold merge_jsonl_files at ho
      rw [if_neg (by simp [List.isEmpty_iff, hp])] at ho
      dsimp only at ho
      injection ho with h2
      rw [← h2]
      exact pySorted_sorted p1

/-- A tiny filesystem for the C4 witness. -/
def c4FsRows : Str → List JsonRow := fun _ => [⟨some "1".data, none, none⟩]

/-- Witness for C4 at the concrete path lists `["b", "a"]` and `["a", "b"]`. -/
theorem claim_C4_merge_order_independence_witness :
    merge_jsonl_files id c4FsRows id ["b".data, "a".data] =
      merge_jsonl_files id c4FsRows id ["a".data, "b".data] ∧
    (∀ o, merge_jsonl_files id c4FsRows id ["b".data, "a".data] = .ok o →
      List.Sorted (· ≤ ·) o.source_files) :=
  claim_C4_merge_order_independence id c4FsRows id _ _
    (List.Perm.swap "a".data "b".data [])

/-! ## Claim C5: prefer-existing on record merge -/

lemma getD_set_self {l : List ResolvedRecord} {i : Nat} (v d : ResolvedRecord)
    (h : i < l.length) : (l.set i v).getD i d = v := by
  rw [List.getD_eq_getElem?_getD, List.getElem?_set_self (by simpa using h)]
  rfl

/-- A copy step never overwrites a non-null, non-empty field. -/
lemma copyStep_field_preserved {other acc : ResolvedRecord}
    {k k' : IdentifierKind} {v : Str} (hv : acc.fieldOf k = some v)
    (hne : v ≠ []) : (copyStep other acc k').fieldOf k = some v := by
  unfold copyStep
  dsimp only
  by_cases hk : k' = k
  · subst hk
    have htr : optTruthy (acc.fieldOf k') = true := by
      rw [hv]
      simp [optTruthy, List.isEmpty_iff, hne]
    rw [if_neg (by simp [htr])]
    exact hv
  · split_ifs
    · rw [fieldOf_withField_ne _ _ hk]
      exact hv
    · exact hv

/-- The whole copy loop never overwrites a non-null, non-empty field. -/
lemma copyMissing_preserves {target other : ResolvedRecord}
    {k : IdentifierKind} {v : Str} (hv : target.fieldOf k = some v)
    (hne : v ≠ []) : (copyMissing target other).fieldOf k = some v := by
  unfold copyMissing kindList
  rw [List.foldl_cons, List.foldl_cons, List.foldl_cons, List.foldl_nil]
  exact copyStep_field_preserved
    (copyStep_field_preserved (copyStep_field_preserved hv hne) hne) hne

/-- A re-index step only changes the index. -/
lemma reindexStep_preserves {t : Nat} {acc acc' : RState}
    {k : IdentifierKind} (h : reindexStep t acc k = .ok acc') :
    acc'.arena = acc.arena ∧ acc'.live = acc.live := by
  unfold reindexStep at h
  split at h
  · cases h
    exact ⟨rfl, rfl⟩
  · split at h
    · cases h
      exact ⟨rfl, rfl⟩
    · cases hn : normalize_value k _ with
      | error e =>
        rw [hn] at h
        cases h
      | ok nv =>
        rw [hn] at h
        cases h
        exact ⟨rfl, rfl⟩

/-- The re-index loop only changes the index. -/
lemma reindexOp_preserves {st st' : RState} {t : Nat}
    (h : reindexOp st t = .ok st') :
    st'.arena = st.arena ∧ st'.live = st.live := by
  have gen : ∀ (ks : List IdentifierKind) (s s' : RState),
      List.foldlM (reindexStep t) s ks = .ok s' →
      s'.arena = s.arena ∧ s'.live = s.live := by
    intro ks
    induction ks with
    | nil =>
      intro s s' hh
      cases hh
      exact ⟨rfl, rfl⟩
    | cons k ks ih =>
      intro s s' hh
      rw [List.foldlM_cons] at hh
      cases hs : reindexStep t s k with
      | error e =>
        rw [hs] at hh
        cases hh
      | ok s1 =>
        rw [hs] at hh
        obtain ⟨h1, h2⟩ := reindexStep_preserves hs
        obtain ⟨h3, h4⟩ := ih s1 s' hh
        exact ⟨h3.trans h1, h4.trans h2⟩
  exact gen kindList st st' h

/-- Removing the absorbed record's value removes the absorbed record, when
its value is unique among the live records. -/
lemma removeFirstEq_not_mem {arena : List ResolvedRecord} :
    ∀ {live : List Nat} {o : Nat}, o ∈ live → live.Nodup →
    (∀ j ∈ live, arena.getD j emptyRecord = arena.getD o emptyRecord → j = o) →
    o ∉ removeFirstEq arena live (arena.getD o emptyRecord) := by
  intro live
  induction live with
  | nil =>
    intro o hmem
    cases hmem
  | cons i rest ih =>
    intro o hmem hnodup huniq
    unfold removeFirstEq
    split_ifs with heq
    · have hio : i = o := huniq i (by simp) heq
      subst hio
      exact (List.nodup_cons.mp hnodup).1
    · have hio : o ≠ i := by
        intro hc
        subst hc
        exact heq rfl
      have homem : o ∈ rest := by
        rcases List.mem_cons.mp hmem with hc | hc
        · exact absurd hc hio
        · exact hc
      intro hmem'
      rcases List.mem_cons.mp hmem' with hc | hc
      · exact hio hc
      · exact ih homem (List.nodup_cons.mp hnodup).2
          (fun j hj => huniq j (by simp [hj])) hc

/-- C5: when `_merge` absorbs live record `o` into live record `t`, every
field of `t` that was already non-null (and non-empty — record fields are
always canonical, hence non-empty) keeps its value, and `o` is removed from
the live list.  The removal is by dataclass *value* equality
(`records.remove(other)`), so the absorbed record's field values are assumed
unique among the live records, as they are in reachable states. -/
theorem claim_C5_merge_prefer_existing (st : RState) (t o : Nat)
    (st' : RState) (hto : t ≠ o) (hlt : t ∈ st.live) (hlo : o ∈ st.live)
    (htlen : t < st.arena.length) (hnodup : st.live.Nodup)
    (huniq : ∀ j ∈ st.live, st.recAt j = st.recAt o → j = o)
    (hok : mergeOp st t o = .ok st') :
    (∀ k v, (st.recAt t).fieldOf k = some v → v ≠ [] →
      (st'.recAt t).fieldOf k = some v) ∧
    o ∉ st'.live := by
  unfold mergeOp at hok
  rw [if_neg hto] at hok
  dsimp only at hok
  obtain ⟨harena, hlive⟩ := reindexOp_preserves hok
  constructor
  · intro k v hv hne
    have harena' : st'.arena =
        st.arena.set t (copyMissing (st.recAt t) (st.recAt o)) := harena
    show (st'.arena.getD t emptyRecord).fieldOf k = some v
    rw [harena', getD_set_self _ _ htlen]
    exact copyMissing_preserves hv hne
  · have hlive' : st'.live =
        removeFirstEq st.arena st.live (st.recAt o) := hlive
    rw [hlive']
    exact removeFirstEq_not_mem hlo hnodup huniq

/-- Concrete state for the C5 witness: two live records with distinct
pmids and DOIs. -/
def c5State : RState :=
  ⟨[⟨some "1".data, none, some "10.1/a".data⟩,
    ⟨some "2".data, none, some "10.1/b".data⟩], [0, 1],
   [((.pmid, "1".data), 0), ((.pmid, "2".data), 1),
    ((.doi, "10.1/a".data), 0), ((.doi, "10.1/b".data), 1)]⟩

/-- The state `mergeOp c5State 0 1` produces. -/
def c5Merged : RState :=
  ⟨[⟨some "1".data, none, some "10.1/a".data⟩,
    ⟨some "2".data, none, some "10.1/b".data⟩], [0],
   [((.doi, "10.1/a".data), 0), ((.pmid, "1".data), 0),
    ((.pmid, "1".data), 0), ((.pmid, "2".data), 1),
    ((.doi, "10.1/a".data), 0), ((.doi, "10.1/b".data), 1)]⟩

/-- Witness for C5 at the concrete merge of record 1 into record 0. -/
theorem claim_C5_merge_prefer_existing_witness :
    (∀ k v, (c5State.recAt 0).fieldOf k = some v → v ≠ [] →
      (c5Merged.recAt 0).fieldOf k = some v) ∧
    1 ∉ c5Merged.live :=
  claim_C5_merge_prefer_existing c5State 0 1 c5Merged (by decide) (by decide)
    (by decide) (by decide) (by decide) (by decide) (by decide)

/-! ## Canonical values: groundwork for claims C7, C8, C10

Every value stored in a record field is the output of `_normalize_value`;
these lemmas characterize those outputs and show they re-normalize. -/

lemma fixed_of_map_eq_self {f : Char → Char} :
    ∀ {l : Str}, l.map f = l → ∀ c ∈ l, f c = c := by
  intro l
  induction l with
  | nil =>
    intro _ c hc
    cases hc
  | cons a t ih =>
    intro h c hc
    rw [List.map_cons] at h
    injection h with h1 h2
    rcases List.mem_cons.mp hc with rfl | hct
    · exact h1
    · exact ih h2 c hct

lemma mem_dropWhile_of_not {p : Char → Bool} {l : Str} {c : Char}
    (hc : c ∈ l) (hp : p c = false) : c ∈ l.dropWhile p := by
  have := List.takeWhile_append_dropWhile p l
  rcases List.mem_append.mp (by rw [this]; exact hc) with hm | hm
  · have := List.mem_takeWhile_imp hm
    rw [hp] at this
    cases this
  · exact hm

lemma mem_stripStr_of_not_space {l : Str} {c : Char} (hc : c ∈ l)
    (hp : isSpaceB c = false) : c ∈ stripStr l := by
  unfold stripStr
  rw [List.mem_reverse]
  exact mem_dropWhile_of_not (List.mem_reverse.mpr
    (mem_dropWhile_of_not hc hp)) hp

lemma mem_of_mem_stripStr {l : Str} {c : Char} (hc : c ∈ stripStr l) :
    c ∈ l := by
  unfold stripStr at hc
  rw [List.mem_reverse] at hc
  have h1 : c ∈ (l.dropWhile isSpaceB).reverse :=
    List.Sublist.mem hc (List.dropWhile_sublist _)
  rw [List.mem_reverse] at h1
  exact List.Sublist.mem h1 (List.dropWhile_sublist _)

/-- The canonical shape of a `_normalize_value` output, per kind. -/
def CanonVal : IdentifierKind → Str → Prop
  | .pmid, v => isdigitStr v = true
  | .pmcid, v => ∃ ds, v = "PMC".data ++ ds ∧ isdigitStr ds = true
  | .doi, v => v.contains '/' = true ∧ lowerStr v = v

lemma canonVal_of_normalize {k : IdentifierKind} {w v : Str}
    (h : normalize_value k w = .ok v) : CanonVal k v := by
  cases k
  · exact normalize_pmid_ok h
  · exact normalize_pmcid_ok h
  · exact normalize_doi_ok h

/-- A canonical pmid re-normalizes to itself. -/
lemma normalize_pmid_canonical {v : Str} (h : isdigitStr v = true) :
    normalize_pmid v = .ok v := by
  have h' := h
  unfold isdigitStr at h'
  rw [Bool.and_eq_true] at h'
  obtain ⟨hne, hall⟩ := h'
  have hallm : ∀ c ∈ v, isDigitB c = true := List.all_eq_true.mp hall
  have hstrip : stripStr v = v :=
    stripStr_eq_self (fun c hc => isSpaceB_digit_false (hallm c hc))
  have hempty : v.isEmpty = false := by simpa using hne
  unfold normalize_pmid
  dsimp only
  rw [hstrip]
  simp [hempty, h]

/-- A canonical pmcid re-normalizes to itself. -/
lemma normalize_pmcid_canonical {ds : Str} (h : isdigitStr ds = true) :
    normalize_pmcid ("PMC".data ++ ds) = .ok ("PMC".data ++ ds) := by
  have h' := h
  unfold isdigitStr at h'
  rw [Bool.and_eq_true] at h'
  obtain ⟨hne, hall⟩ := h'
  have hallm : ∀ c ∈ ds, isDigitB c = true := List.all_eq_true.mp hall
  have hstrip : stripStr ("PMC".data ++ ds) = "PMC".data ++ ds :=
    stripStr_eq_self (by
      intro c hcmem
      rcases List.mem_append.mp hcmem with hm | hm
      · fin_cases hm <;> decide
      · exact isSpaceB_digit_false (hallm c hm))
  have hupper : upperStr ("PMC".data ++ ds) = "PMC".data ++ ds := by
    unfold upperStr
    rw [List.map_append,
      map_eq_self_of_fixed (fun c hcm => upperChar_digit (hallm c hcm)),
      (by decide : List.map upperChar "PMC".data = "PMC".data)]
  cases ds with
  | nil => cases (show False by simp at hne)
  | cons d ds' =>
    have hd : isDigitB d = true := hallm d (by simp)
    have hId : (('I' : Char) == d) = false := head_ne_of_digit hd (by decide)
    have hg4 : beginsWith ("PMC".data ++ d :: ds') "PMCID:".data = false := by
      simp [beginsWith_cons, hId]
    have hg5 : beginsWith ("PMC".data ++ d :: ds') "PMC".data = true := by
      simp [beginsWith_cons, beginsWith]
    unfold normalize_pmcid
    dsimp only
    simp only [hstrip, hupper]
    simp [beginsWith_cons, beginsWith_nil, hId, h,
      (show List.drop 3 ('P' :: 'M' :: 'C' :: d :: ds') = d :: ds' from rfl)]

/-- A canonical doi re-normalizes successfully (possibly to a different
value when it carries a `doi:` residue or embedded whitespace). -/
lemma normalize_doi_canonical_ok {v : Str} (hc : v.contains '/' = true)
    (hl : lowerStr v = v) : (normalize_doi v).isOk = true := by
  have hmem : ('/' : Char) ∈ v := List.elem_iff.mp hc
  have hfix : ∀ c ∈ v, lowerChar c = c := fixed_of_map_eq_self hl
  have hsfix : lowerStr (stripStr v) = stripStr v :=
    map_eq_self_of_fixed (fun c hc2 => hfix c (mem_of_mem_stripStr hc2))
  have hmem2 : ('/' : Char) ∈ stripStr v :=
    mem_stripStr_of_not_space hmem (by decide)
  unfold normalize_doi
  dsimp only
  rw [hsfix]
  by_cases hd : beginsWith (stripStr v) "doi:".data = true
  · rw [if_pos hd]
    obtain ⟨rest, hrest⟩ : ∃ rest, stripStr v = "doi:".data ++ rest := by
      have hp := hd
      unfold beginsWith at hp
      rw [List.isPrefixOf_iff_prefix] at hp
      obtain ⟨t, ht⟩ := hp
      exact ⟨t, ht.symm⟩
    rw [hrest]
    have hac : afterColon ("doi:".data ++ rest) = rest := rfl
    rw [hac]
    have hslash : ('/' : Char) ∈ rest := by
      rw [hrest] at hmem2
      rcases List.mem_append.mp hmem2 with hm | hm
      · simp at hm
      · exact hm
    have h5 : rest.contains '/' = true := List.elem_iff.mpr hslash
    simp [h5, hslash, Except.isOk, Except.toBool]
  · rw [if_neg hd]
    have h5 : (stripStr v).contains '/' = true := List.elem_iff.mpr hmem2
    simp [h5, hmem2, Except.isOk, Except.toBool]

/-- Canonical values re-normalize successfully. -/
lemma normalize_ok_of_canonVal {k : IdentifierKind} {v : Str}
    (h : CanonVal k v) : (normalize_value k v).isOk = true := by
  cases k
  · rw [show normalize_value .pmid v = normalize_pmid v from rfl,
      normalize_pmid_canonical h]
    rfl
  · obtain ⟨ds, rfl, hds⟩ := h
    rw [show normalize_value .pmcid _ = normalize_pmcid _ from rfl,
      normalize_pmcid_canonical hds]
    rfl
  · exact normalize_doi_canonical_ok h.1 h.2

/-! ### The canonical-fields invariant of the resolution state -/

/-- Every field of every record ever created is a canonical value. -/
def StCanon (st : RState) : Prop :=
  ∀ i k v, ((st.arena.getD i emptyRecord).fieldOf k) = some v → CanonVal k v

lemma getD_set_ne {l : List ResolvedRecord} {i j : Nat}
    (v d : ResolvedRecord) (h : j ≠ i) : (l.set i v).getD j d = l.getD j d := by
  rw [List.getD_eq_getElem?_getD, List.getElem?_set_ne (by omega),
    ← List.getD_eq_getElem?_getD]

lemma getD_of_length_le {l : List ResolvedRecord} {i : Nat}
    (d : ResolvedRecord) (h : l.length ≤ i) : l.getD i d = d := by
  rw [List.getD_eq_getElem?_getD, List.getElem?_eq_none (by omega)]
  rfl

lemma except_bind_ok_inv {α β : Type} {x : Except Str α} {f : α → Except Str β}
    {b : β} (h : (x >>= f) = .ok b) : ∃ a, x = .ok a ∧ f a = .ok b := by
  cases x with
  | error e => cases h
  | ok a => exact ⟨a, rfl, h⟩

lemma stCanon_empty : StCanon RState.empty := by
  intro i k v hv
  have : (RState.empty.arena.getD i emptyRecord) = emptyRecord := by
    cases i <;> rfl
  rw [this, fieldOf_emptyRecord] at hv
  cases hv

lemma stCanon_of_arena_eq {st st' : RState} (h : st'.arena = st.arena)
    (hc : StCanon st) : StCanon st' := by
  intro i k v hv
  rw [h] at hv
  exact hc i k v hv

lemma stCanon_setRecAt {st : RState} {i : Nat} {r : ResolvedRecord}
    (hc : StCanon st) (hr : ∀ k v, r.fieldOf k = some v → CanonVal k v) :
    StCanon (setRecAt st i r) := by
  intro j k v hv
  unfold setRecAt at hv
  dsimp only at hv
  by_cases hij : j = i
  · subst hij
    rcases Nat.lt_or_ge j st.arena.length with hlt | hge
    · rw [getD_set_self _ _ hlt] at hv
      exact hr k v hv
    · rw [List.set_eq_of_length_le hge] at hv
      exact hc j k v hv
  · rw [getD_set_ne _ _ hij] at hv
    exact hc j k v hv

lemma stCanon_attachOp {st : RState} {i : Nat} {k : IdentifierKind}
    {nv : Str} (hc : StCanon st) (hnv : CanonVal k nv) :
    StCanon (attachOp st i k nv) := by
  unfold attachOp
  dsimp only
  apply stCanon_of_arena_eq (rfl)
  apply stCanon_setRecAt hc
  intro k' v hv
  by_cases hk : k' = k
  · subst hk
    rw [fieldOf_withField_same] at hv
    injection hv with hv
    rw [← hv]
    exact hnv
  · rw [fieldOf_withField_ne _ _ (fun hc2 => hk hc2.symm)] at hv
    exact hc i k' v hv

lemma stCanon_extend {st : RState} (hc : StCanon st) :
    StCanon (⟨st.arena ++ [emptyRecord], st.live ++ [st.arena.length],
      st.index⟩ : RState) := by
  intro j k v hv
  dsimp only at hv
  rcases Nat.lt_or_ge j st.arena.length with hlt | hge
  · rw [List.getD_append _ _ _ _ hlt] at hv
    exact hc j k v hv
  · have hrw : (st.arena ++ [emptyRecord]).getD j emptyRecord = emptyRecord := by
      rcases Nat.eq_or_lt_of_le hge with heq | hgt
      · rw [← heq]  at *
        rw [List.getD_eq_getElem?_getD, List.getElem?_append_right (by omega)]
        simp [heq]
      · exact getD_of_length_le _ (by simp; omega)
    rw [hrw, fieldOf_emptyRecord] at hv
    cases hv

lemma stCanon_ensureRecord {st : RState} {k : IdentifierKind} {value : Str}
    {st' : RState} {i : Nat} (hc : StCanon st)
    (h : ensureRecord st k value = .ok (st', i)) : StCanon st' := by
  unfold ensureRecord at h
  cases hn : normalize_value k value with
  | error e =>
    rw [hn] at h
    cases h
  | ok nv =>
    rw [hn] at h
    simp only [except_bind_ok] at h
    split at h
    · cases h
      exact hc
    · cases h
      exact stCanon_attachOp (stCanon_extend hc) (canonVal_of_normalize hn)

/-- A copy step leaves each field equal to the accumulator's or the other
record's value for that field. -/
lemma copyStep_field_cases (other acc : ResolvedRecord)
    (k k' : IdentifierKind) :
    (copyStep other acc k').fieldOf k = acc.fieldOf k ∨
    (copyStep other acc k').fieldOf k = other.fieldOf k := by
  unfold copyStep
  dsimp only
  split_ifs
  · by_cases hk : k' = k
    · subst hk
      right
      exact fieldOf_withField_same _ _ _
    · left
      exact fieldOf_withField_ne _ _ hk
  · left
    rfl

lemma copyMissing_field_cases (target other : ResolvedRecord)
    (k : IdentifierKind) :
    (copyMissing target other).fieldOf k = target.fieldOf k ∨
    (copyMissing target other).fieldOf k = other.fieldOf k := by
  unfold copyMissing kindList
  rw [List.foldl_cons, List.foldl_cons, List.foldl_cons, List.foldl_nil]
  rcases copyStep_field_cases other
    (copyStep other (copyStep other target .pmid) .pmcid) k .doi with h3 | h3
  · rw [h3]
    rcases copyStep_field_cases other (copyStep other target .pmid) k .pmcid
      with h2 | h2
    · rw [h2]
      rcases copyStep_field_cases other target k .pmid with h1 | h1
      · rw [h1]
        exact Or.inl rfl
      · rw [h1]
        exact Or.inr rfl
    · rw [h2]
      exact Or.inr rfl
  · rw [h3]
    exact Or.inr rfl

lemma stCanon_mergeOp {st : RState} {t o : Nat} {st' : RState}
    (hc : StCanon st) (h : mergeOp st t o = .ok st') : StCanon st' := by
  unfold mergeOp at h
  split_ifs at h with hto
  · cases h
    exact hc
  · dsimp only at h
    obtain ⟨harena, _⟩ := reindexOp_preserves h
    apply stCanon_of_arena_eq harena
    apply stCanon_setRecAt (stCanon_of_arena_eq rfl hc)
    intro k v hv
    have hv2 : (copyMissing (st.recAt t) (st.recAt o)).fieldOf k = some v := hv
    rcases copyMissing_field_cases (st.recAt t) (st.recAt o) k with hcase | hcase
    · rw [hcase] at hv2
      exact hc t k v hv2
    · rw [hcase] at hv2
      exact hc o k v hv2

lemma stCanon_linkOp {st : RState} {i : Nat} {k : IdentifierKind}
    {value : Str} {st' : RState} {j : Nat} (hc : StCanon st)
    (h : linkOp st i k value = .ok (st', j)) : StCanon st' := by
  unfold linkOp at h
  cases hn : normalize_value k value with
  | error e =>
    rw [hn] at h
    cases h
  | ok nv =>
    rw [hn] at h
    simp only [except_bind_ok] at h
    split at h
    · cases h
      exact stCanon_of_arena_eq rfl (stCanon_attachOp hc
        (canonVal_of_normalize hn))
    · split_ifs at h with hji
      · cases h
        exact hc
      · obtain ⟨st1, hm, h2⟩ := except_bind_ok_inv h
        cases h2
        exact stCanon_of_arena_eq rfl (stCanon_attachOp
          (stCanon_mergeOp hc hm) (canonVal_of_normalize hn))

lemma stCanon_seedItem {st : RState} {n : NormalizedIdentifier}
    {st' : RState} (hc : StCanon st) (h : seedItem st n = .ok st') :
    StCanon st' := by
  unfold seedItem at h
  obtain ⟨⟨st1, r1⟩, he, h2⟩ := except_bind_ok_inv h
  cases h2
  exact stCanon_ensureRecord hc he

lemma stCanon_linkIf {st : RState} {r : Nat} {k : IdentifierKind}
    {v : Option Str} {st' : RState} {r' : Nat} (hc : StCanon st)
    (h : linkIf st r k v = .ok (st', r')) : StCanon st' := by
  unfold linkIf at h
  split_ifs at h
  · exact stCanon_linkOp hc h
  · cases h
    exact hc

lemma stCanon_pass1Item {st : RState} {item : Str × PmcPayload}
    {st' : RState} (hc : StCanon st) (h : pass1Item st item = .ok st') :
    StCanon st' := by
  unfold pass1Item at h
  obtain ⟨⟨st1, r1⟩, he, h⟩ := except_bind_ok_inv h
  dsimp only at h
  obtain ⟨⟨st2, r2⟩, hl1, h⟩ := except_bind_ok_inv h
  dsimp only at h
  obtain ⟨⟨st3, r3⟩, hl2, h⟩ := except_bind_ok_inv h
  dsimp only at h
  cases h
  exact stCanon_linkIf (stCanon_linkIf (stCanon_ensureRecord hc he) hl1) hl2

lemma stCanon_pass2Item {st : RState} {item : Str × EntrezPayload}
    {st' : RState} (hc : StCanon st) (h : pass2Item st item = .ok st') :
    StCanon st' := by
  unfold pass2Item at h
  obtain ⟨⟨st1, r1⟩, he, h⟩ := except_bind_ok_inv h
  dsimp only at h
  obtain ⟨⟨st2, r2⟩, hl1, h⟩ := except_bind_ok_inv h
  dsimp only at h
  obtain ⟨⟨st3, r3⟩, hl2, h⟩ := except_bind_ok_inv h
  dsimp only at h
  cases h
  exact stCanon_linkIf (stCanon_linkIf (stCanon_ensureRecord hc he) hl1) hl2

lemma stCanon_pass3Step {g : Gateways} {acc out : RState × List Str × List Str}
    {target : IdentifierKind × Str} (hc : StCanon acc.1)
    (h : pass3Step g acc target = .ok out) : StCanon out.1 := by
  obtain ⟨st, used, errors⟩ := acc
  unfold pass3Step at h
  dsimp only at h hc
  split_ifs at h with h1
  · cases h
    exact hc
  · split at h
    · cases h
      exact hc
    · cases h
      exact hc
    · split_ifs at h with h2
      · cases h
        exact hc
      · obtain ⟨⟨st1, r1⟩, he, h⟩ := except_bind_ok_inv h
        dsimp only at h
        obtain ⟨⟨st2, r2⟩, hl1, h⟩ := except_bind_ok_inv h
        dsimp only at h
        obtain ⟨⟨st3, r3⟩, hl2, h⟩ := except_bind_ok_inv h
        dsimp only at h
        obtain ⟨⟨st4, r4⟩, hl3, h⟩ := except_bind_ok_inv h
        dsimp only at h
        cases h
        exact stCanon_linkIf (stCanon_linkIf (stCanon_linkIf
          (stCanon_ensureRecord hc he) hl1) hl2) hl3

lemma stCanon_foldlM_seed :
    ∀ (ids : List NormalizedIdentifier) {st st' : RState}, StCanon st →
    List.foldlM seedItem st ids = .ok st' → StCanon st' := by
  intro ids
  induction ids with
  | nil =>
    intro st st' hc h
    cases h
    exact hc
  | cons a l ih =>
    intro st st' hc h
    rw [List.foldlM_cons] at h
    obtain ⟨st1, h1, h2⟩ := except_bind_ok_inv h
    exact ih (stCanon_seedItem hc h1) h2

lemma stCanon_foldlM_pass1 :
    ∀ (conv : List (Str × PmcPayload)) {st st' : RState}, StCanon st →
    List.foldlM pass1Item st conv = .ok st' → StCanon st' := by
  intro conv
  induction conv with
  | nil =>
    intro st st' hc h
    cases h
    exact hc
  | cons a l ih =>
    intro st st' hc h
    rw [List.foldlM_cons] at h
    obtain ⟨st1, h1, h2⟩ := except_bind_ok_inv h
    exact ih (stCanon_pass1Item hc h1) h2

lemma stCanon_foldlM_pass2 :
    ∀ (conv : List (Str × EntrezPayload)) {st st' : RState}, StCanon st →
    List.foldlM pass2Item st conv = .ok st' → StCanon st' := by
  intro conv
  induction conv with
  | nil =>
    intro st st' hc h
    cases h
    exact hc
  | cons a l ih =>
    intro st st' hc h
    rw [List.foldlM_cons] at h
    obtain ⟨st1, h1, h2⟩ := except_bind_ok_inv h
    exact ih (stCanon_pass2Item hc h1) h2

lemma stCanon_foldlM_pass3 {g : Gateways} :
    ∀ (ts : List (IdentifierKind × Str)) {acc out : RState × List Str × List Str},
    StCanon acc.1 → List.foldlM (pass3Step g) acc ts = .ok out →
    StCanon out.1 := by
  intro ts
  induction ts with
  | nil =>
    intro acc out hc h
    cases h
    exact hc
  | cons a l ih =>
    intro acc out hc h
    rw [List.foldlM_cons] at h
    obtain ⟨acc1, h1, h2⟩ := except_bind_ok_inv h
    exact ih (stCanon_pass3Step hc h1) h2

lemma stCanon_pass1 {g : Gateways} {ids : List NormalizedIdentifier}
    {st : RState} {used errs : List Str} {out : RState × List Str × List Str}
    (hc : StCanon st) (h : pass1 g ids st used errs = .ok out) :
    StCanon out.1 := by
  unfold pass1 at h
  dsimp only at h
  split_ifs at h with h1
  · cases h
    exact hc
  · split at h
    · cases h
      exact hc
    · obtain ⟨st1, hf, h2⟩ := except_bind_ok_inv h
      cases h2
      exact stCanon_foldlM_pass1 _ hc hf

lemma stCanon_pass2 {g : Gateways} {st : RState} {used errs : List Str}
    {out : RState × List Str × List Str} (hc : StCanon st)
    (h : pass2 g st used errs = .ok out) : StCanon out.1 := by
  unfold pass2 at h
  dsimp only at h
  split_ifs at h with h1
  · cases h
    exact hc
  · split at h
    · cases h
      exact hc
    · obtain ⟨st1, hf, h2⟩ := except_bind_ok_inv h
      cases h2
      exact stCanon_foldlM_pass2 _ hc hf

/-- Every record returned by a successful `resolve` has only canonical
fields. -/
lemma resolve_records_canonical {g : Gateways}
    {ids : List NormalizedIdentifier} {r : ResolutionResult}
    (h : resolve g ids = .ok r) :
    ∀ rec ∈ r.records, ∀ k v, rec.fieldOf k = some v → CanonVal k v := by
  unfold resolve at h
  obtain ⟨st0, hseed, h⟩ := except_bind_ok_inv h
  have hc0 : StCanon st0 := stCanon_foldlM_seed ids stCanon_empty hseed
  obtain ⟨⟨st1, u1, e1⟩, hp1, h⟩ := except_bind_ok_inv h
  have hc1 : StCanon st1 := stCanon_pass1 hc0 hp1
  obtain ⟨⟨st2, u2, e2⟩, hp2, h⟩ := except_bind_ok_inv h
  have hc2 : StCanon st2 := stCanon_pass2 hc1 hp2
  obtain ⟨⟨st3, u3, e3⟩, hp3, h⟩ := except_bind_ok_inv h
  have hc3 : StCanon st3 := stCanon_foldlM_pass3 _ hc2 hp3
  cases h
  intro rec hrec k v hv
  obtain ⟨i, hi, rfl⟩ := List.mem_map.mp hrec
  exact hc3 i k v hv

/-! ### Canonical fields of merge outputs -/

/-- The canonical-fields property of one output record, phrased as the
claim phrases it. -/
def RecordCanonical (rec : ResolvedRecord) : Prop :=
  ∀ k v, rec.fieldOf k = some v → CanonVal k v

lemma normalize_identifier_canonical {x : Str} {n : NormalizedIdentifier}
    (h : normalize_identifier x = .ok n) : CanonVal n.kind n.value := by
  rcases normalize_identifier_ok_shape h with ⟨hk, hd⟩ | ⟨hk, hd⟩ | ⟨hk, hd⟩ <;>
    rw [hk] <;> exact hd

lemma normalizeRowStep_canonical {path : Str}
    {acc : List NormalizedIdentifier × List Str} {v : Option Str}
    (hacc : ∀ n ∈ acc.1, CanonVal n.kind n.value) :
    ∀ n ∈ (normalizeRowStep path acc v).1, CanonVal n.kind n.value := by
  intro n hn
  unfold normalizeRowStep at hn
  split at hn
  · exact hacc n hn
  · split_ifs at hn
    · exact hacc n hn
    · split at hn
      · rcases List.mem_append.mp hn with hm | hm
        · exact hacc n hm
        · rw [List.mem_singleton.mp hm]
          next heq => exact normalize_identifier_canonical heq
      · exact hacc n hn

lemma normalizeRow_canonical (path : Str) (row : JsonRow) :
    ∀ n ∈ (normalizeRow path row).1, CanonVal n.kind n.value := by
  unfold normalizeRow
  exact normalizeRowStep_canonical (normalizeRowStep_canonical
    (normalizeRowStep_canonical (by intro n hn; cases hn)))

lemma processPath_canonical (fsRows : Str → List JsonRow) (path : Str) :
    ∀ idsl ∈ (processPath fsRows path).1, ∀ n ∈ idsl,
      CanonVal n.kind n.value := by
  unfold processPath
  have gen : ∀ (rows : List JsonRow)
      (acc : List (List NormalizedIdentifier) × List Str),
      (∀ idsl ∈ acc.1, ∀ n ∈ idsl, CanonVal n.kind n.value) →
      ∀ idsl ∈ (rows.foldl (processPathStep path) acc).1, ∀ n ∈ idsl,
        CanonVal n.kind n.value := by
    intro rows
    induction rows with
    | nil => intro acc h idsl hl; exact h idsl hl
    | cons a t ih =>
      intro acc h idsl hl
      rw [List.foldl_cons] at hl
      refine ih _ ?_ idsl hl
      intro idsl2 hl2
      unfold processPathStep at hl2
      dsimp only at hl2
      split_ifs at hl2
      · exact h idsl2 hl2
      · rcases List.mem_append.mp hl2 with hm | hm
        · exact h idsl2 hm
        · rw [List.mem_singleton.mp hm]
          exact normalizeRow_canonical path a
  exact gen _ _ (by intro idsl hl; cases hl)

lemma mergePathFold_canonical (fsRows : Str → List JsonRow) :
    ∀ (ps : List Str) (acc : List (List NormalizedIdentifier) × List Str),
    (∀ idsl ∈ acc.1, ∀ n ∈ idsl, CanonVal n.kind n.value) →
    ∀ idsl ∈ (ps.foldl (mergePathStep fsRows) acc).1, ∀ n ∈ idsl,
      CanonVal n.kind n.value := by
  intro ps
  induction ps with
  | nil => intro acc h idsl hl; exact h idsl hl
  | cons p t ih =>
    intro acc h idsl hl
    rw [List.foldl_cons] at hl
    refine ih _ ?_ idsl hl
    intro idsl2 hl2
    unfold mergePathStep at hl2
    dsimp only at hl2
    rcases List.mem_append.mp hl2 with hm | hm
    · exact h idsl2 hm
    · exact processPath_canonical fsRows p idsl2 hm

lemma mem_keyIds_fold :
    ∀ (l acc : List (Str × NormalizedIdentifier))
      (x : Str × NormalizedIdentifier),
    x ∈ l.foldl (fun acc p =>
      if (acc.find? (fun e => e.1 == p.1)).isSome then acc
      else acc ++ [p]) acc →
    x ∈ acc ∨ x ∈ l := by
  intro l
  induction l with
  | nil =>
    intro acc x h
    exact Or.inl h
  | cons a t ih =>
    intro acc x h
    rw [List.foldl_cons] at h
    rcases ih _ x h with hm | hm
    · split_ifs at hm with hc
      · exact Or.inl hm
      · rcases List.mem_append.mp hm with h2 | h2
        · exact Or.inl h2
        · rw [List.mem_singleton.mp h2]
          exact Or.inr (by simp)
    · exact Or.inr (by simp [hm])

lemma groupStep_keyIds_mem {uf : UFState}
    {ids : List NormalizedIdentifier} {x : Str × NormalizedIdentifier}
    (h : x ∈ (groupStep uf ids).keyIds) : x ∈ uf.keyIds ∨ x.2 ∈ ids := by
  unfold groupStep at h
  split_ifs at h with he
  · exact Or.inl h
  · dsimp only at h
    rcases mem_keyIds_fold _ _ _ h with hm | hm
    · exact Or.inl hm
    · right
      obtain ⟨xk, xn⟩ := x
      exact (List.of_mem_zip hm).2

lemma groupIdentifiers_canonical
    {records : List (List NormalizedIdentifier)}
    (hrec : ∀ idsl ∈ records, ∀ n ∈ idsl, CanonVal n.kind n.value) :
    ∀ p ∈ (groupIdentifiers records).keyIds,
      CanonVal p.2.kind p.2.value := by
  have gen : ∀ (rs : List (List NormalizedIdentifier)) (uf : UFState),
      (∀ p ∈ uf.keyIds, CanonVal p.2.kind p.2.value) →
      (∀ idsl ∈ rs, ∀ n ∈ idsl, CanonVal n.kind n.value) →
      ∀ p ∈ (rs.foldl groupStep uf).keyIds, CanonVal p.2.kind p.2.value := by
    intro rs
    induction rs with
    | nil =>
      intro uf h1 _ p hp
      exact h1 p hp
    | cons a t ih =>
      intro uf h1 h2 p hp
      rw [List.foldl_cons] at hp
      refine ih _ ?_ ?_ p hp
      · intro q hq
        rcases groupStep_keyIds_mem hq with hm | hm
        · exact h1 q hm
        · exact h2 a (by simp) q.2 hm
      · intro idsl hl
        exact h2 idsl (by simp [hl])
  intro p hp
  exact gen records ⟨[], []⟩ (by intro q hq; cases hq) hrec p hp

/-- All values accumulated in any component bucket are canonical. -/
def BucketsCanonical (comps : List (Str × KindSets)) : Prop :=
  ∀ rb ∈ comps, ∀ k v, v ∈ rb.2.ofKind k → CanonVal k v

lemma mem_addVal {b : KindSets} {k k' : IdentifierKind} {v v' : Str}
    (h : v' ∈ (b.addVal k v).ofKind k') :
    v' ∈ b.ofKind k' ∨ (k' = k ∧ v' = v) := by
  unfold KindSets.addVal at h
  split_ifs at h with hc
  · exact Or.inl h
  · cases k <;> cases k' <;>
      first
        | exact Or.inl h
        | (rcases List.mem_append.mp h with hm | hm
           exacts [Or.inl hm, Or.inr ⟨rfl, List.mem_singleton.mp hm⟩])

lemma componentsStep_canonical {uf : UFState}
    {comps : List (Str × KindSets)} {p : Str × NormalizedIdentifier}
    (hcomps : BucketsCanonical comps) (hp : CanonVal p.2.kind p.2.value) :
    BucketsCanonical (componentsStep uf comps p) := by
  intro rb hrb k v hv
  unfold componentsStep at hrb
  dsimp only at hrb
  split_ifs at hrb with hfind
  · obtain ⟨q, hq, hfq⟩ := List.mem_map.mp hrb
    by_cases hroot : q.1 = ufRoot uf.parent p.1
    · rw [if_pos hroot] at hfq
      rw [← hfq] at hv
      rcases mem_addVal hv with hm | ⟨rfl, rfl⟩
      · exact hcomps q hq k v hm
      · exact hp
    · rw [if_neg hroot] at hfq
      rw [← hfq] at hv
      exact hcomps q hq k v hv
  · rcases List.mem_append.mp hrb with hm | hm
    · exact hcomps rb hm k v hv
    · rw [List.mem_singleton.mp hm] at hv
      rcases mem_addVal hv with hm2 | ⟨rfl, rfl⟩
      · cases k <;> cases hm2
      · exact hp

lemma componentsOf_canonical {uf : UFState}
    (h : ∀ p ∈ uf.keyIds, CanonVal p.2.kind p.2.value) :
    BucketsCanonical (componentsOf uf) := by
  have gen : ∀ (l : List (Str × NormalizedIdentifier))
      (comps : List (Str × KindSets)), BucketsCanonical comps →
      (∀ p ∈ l, CanonVal p.2.kind p.2.value) →
      BucketsCanonical (l.foldl (componentsStep uf) comps) := by
    intro l
    induction l with
    | nil =>
      intro comps h1 _
      exact h1
    | cons a t ih =>
      intro comps h1 h2
      rw [List.foldl_cons]
      exact ih _ (componentsStep_canonical h1 (h2 a (by simp)))
        (fun p hp => h2 p (by simp [hp]))
  exact gen uf.keyIds [] (by intro rb hrb; cases hrb) h

lemma buildGroup_record_canonical {root : Str} {b : KindSets}
    (hb : ∀ k v, v ∈ b.ofKind k → CanonVal k v) :
    RecordCanonical (buildGroup root b).1 := by
  intro k v hv
  rw [buildGroup_fieldOf] at hv
  split_ifs at hv with hE
  all_goals try cases hv
  all_goals
    (have hnil : pySorted (b.ofKind k) ≠ [] := by
       intro hcon
       rw [hcon] at hE
       exact hE rfl
     exact hb k _ ((pySorted_perm (b.ofKind k)).mem_iff.mp (headD_mem hnil)))

lemma buildFold_canonical :
    ∀ (comps : List (Str × KindSets))
      (bacc : List (Str × ResolvedRecord) × List Str),
    (∀ q ∈ bacc.1, RecordCanonical q.2) → BucketsCanonical comps →
    ∀ q ∈ (comps.foldl buildStep bacc).1, RecordCanonical q.2 := by
  intro comps
  induction comps with
  | nil =>
    intro bacc h1 _ q hq
    exact h1 q hq
  | cons a t ih =>
    intro bacc h1 h2 q hq
    rw [List.foldl_cons] at hq
    refine ih _ ?_ (fun rb hrb => h2 rb (by simp [hrb])) q hq
    intro q2 hq2
    unfold buildStep at hq2
    dsimp only at hq2
    rcases List.mem_append.mp hq2 with hm | hm
    · exact h1 q2 hm
    · rw [List.mem_singleton.mp hm]
      exact @buildGroup_record_canonical a.1 a.2
        (fun k v hv => h2 a (by simp) k v hv)

/-- Every record returned by a successful `merge_jsonl_files` has only
canonical fields. -/
lemma merge_records_canonical {digest : Str → Str}
    {fsRows : Str → List JsonRow} {fsBytes : Str → Str} {paths : List Str}
    {o : MergeOutcome}
    (h : merge_jsonl_files digest fsRows fsBytes paths = .ok o) :
    ∀ rec ∈ o.records, RecordCanonical rec := by
  unfold merge_jsonl_files at h
  split_ifs at h with h1
  dsimp only at h
  cases h
  intro rec hrec
  dsimp only at hrec
  obtain ⟨q, hq, rfl⟩ := List.mem_map.mp hrec
  have hq2 : q ∈ ((componentsOf (groupIdentifiers
      (((pySorted paths).foldl (mergePathStep fsRows) ([], [])).1))).foldl
        buildStep ([], ((pySorted paths).foldl (mergePathStep fsRows)
          ([], [])).2)).1 :=
    (List.perm_insertionSort _ _).mem_iff.mp hq
  refine buildFold_canonical _ _ (by intro q2 hq3; cases hq3) ?_ q hq2
  exact componentsOf_canonical (groupIdentifiers_canonical
    (mergePathFold_canonical fsRows _ _ (by intro idsl hl; cases hl)))

/-- **C10.** Every non-null field value stored in any record produced by
`resolve` or by `merge_jsonl_files` is in canonical form: every pmid field
consists only of digits, every pmcid field is the string `PMC` followed only
by digits, and every doi field contains a slash and is lowercase. -/
theorem claim_C10_canonical_fields
    {g : Gateways} {ids : List NormalizedIdentifier} {r : ResolutionResult}
    {digest : Str → Str} {fsRows : Str → List JsonRow} {fsBytes : Str → Str}
    {paths : List Str} {o : MergeOutcome}
    (hr : resolve g ids = .ok r)
    (hm : merge_jsonl_files digest fsRows fsBytes paths = .ok o) :
    ∀ rec, (rec ∈ r.records ∨ rec ∈ o.records) →
      (∀ v, rec.pmid = some v → isdigitStr v = true) ∧
      (∀ v, rec.pmcid = some v →
        ∃ ds, v = "PMC".data ++ ds ∧ isdigitStr ds = true) ∧
      (∀ v, rec.doi = some v → v.contains '/' = true ∧ lowerStr v = v) := by
  intro rec hrec
  have hcan : RecordCanonical rec := by
    rcases hrec with hrec | hrec
    · exact fun k v hv => resolve_records_canonical hr rec hrec k v hv
    · exact merge_records_canonical hm rec hrec
  exact ⟨fun v hv => hcan .pmid v hv, fun v hv => hcan .pmcid v hv,
    fun v hv => hcan .doi v hv⟩

/-! ## Claim C7: partial gateway failure tolerance

`resolve` can only raise through `normalize_value` (a Python `ValueError`
escaping from `ensure_record`/`link`/`_merge`); a gateway *failure* is always
caught.  We prove that under well-formed gateway successes (every returned
key and truthy payload field passes the normalizer — the shape the real
gateway adapters guarantee; a violation would be the "programming error"
case the spec excludes) `resolve` always returns a result, and that each
caught gateway error only appends its message to the error list, leaving the
state and the used-source set untouched, so the remaining passes and
per-pair calls proceed from the same state. -/

lemma isOk_exists {α : Type} {x : Except Str α} (h : x.isOk = true) :
    ∃ a, x = .ok a := by
  cases x
  · cases h
  · exact ⟨_, rfl⟩

/-- A payload value can be linked: if truthy, it passes the normalizer. -/
def LinkableVal (k : IdentifierKind) (v : Option Str) : Prop :=
  optTruthy v = true → (normalize_value k (v.getD [])).isOk = true

/-- Well-formed gateway behaviour: whenever a call succeeds, every mapping
key and every truthy payload field passes the kind-specific normalizer. -/
def WFGateways (g : Gateways) : Prop :=
  (∀ x conv, g.pmcConvert x = .ok conv → ∀ e ∈ conv,
    (normalize_value .pmcid e.1).isOk = true ∧
    LinkableVal .pmid e.2.pmid ∧ LinkableVal .doi e.2.doi) ∧
  (∀ x sums, g.entrezFetch x = .ok sums → ∀ e ∈ sums,
    (normalize_value .pmid e.1).isOk = true ∧
    LinkableVal .pmcid e.2.pmcid ∧ LinkableVal .doi e.2.doi) ∧
  (∀ x d, g.semanticFetch x = .ok (some d) →
    LinkableVal .pmid d.pmid ∧ LinkableVal .pmcid d.pmcid ∧
    LinkableVal .doi d.doi)

lemma ensureRecord_ok {st : RState} {k : IdentifierKind} {value : Str}
    (hn : (normalize_value k value).isOk = true) :
    ∃ p, ensureRecord st k value = .ok p := by
  obtain ⟨nv, hnv⟩ := isOk_exists hn
  unfold ensureRecord
  rw [hnv]
  simp only [except_bind_ok]
  split
  · exact ⟨_, rfl⟩
  · exact ⟨_, rfl⟩

lemma reindexStep_ok {t : Nat} {acc : RState} {k : IdentifierKind}
    (hc : StCanon acc) : ∃ st', reindexStep t acc k = .ok st' := by
  unfold reindexStep
  cases hf : (acc.recAt t).fieldOf k with
  | none => exact ⟨_, rfl⟩
  | some s =>
    dsimp only
    split_ifs with hs
    · exact ⟨_, rfl⟩
    · obtain ⟨nv, hnv⟩ := isOk_exists (normalize_ok_of_canonVal (hc t k s hf))
      rw [hnv]
      simp only [except_bind_ok]
      exact ⟨_, rfl⟩

lemma reindexOp_ok {st : RState} {t : Nat} (hc : StCanon st) :
    ∃ st', reindexOp st t = .ok st' := by
  obtain ⟨s1, h1⟩ := @reindexStep_ok t st .pmid hc
  have hc1 : StCanon s1 :=
    stCanon_of_arena_eq (reindexStep_preserves h1).1 hc
  obtain ⟨s2, h2⟩ := @reindexStep_ok t s1 .pmcid hc1
  have hc2 : StCanon s2 :=
    stCanon_of_arena_eq ((reindexStep_preserves h2).1.trans
      (reindexStep_preserves h1).1) hc
  obtain ⟨s3, h3⟩ := @reindexStep_ok t s2 .doi hc2
  refine ⟨s3, ?_⟩
  unfold reindexOp kindList
  rw [List.foldlM_cons, h1]
  simp only [except_bind_ok]
  rw [List.foldlM_cons, h2]
  simp only [except_bind_ok]
  rw [List.foldlM_cons, h3]
  simp only [except_bind_ok]
  rfl

lemma mergeOp_ok {st : RState} {t o : Nat} (hc : StCanon st) :
    ∃ st', mergeOp st t o = .ok st' := by
  unfold mergeOp
  split_ifs with hto
  · exact ⟨_, rfl⟩
  · dsimp only
    apply reindexOp_ok
    apply stCanon_setRecAt (stCanon_of_arena_eq rfl hc)
    intro k v hv
    have hv2 : (copyMissing (st.recAt t) (st.recAt o)).fieldOf k = some v := hv
    rcases copyMissing_field_cases (st.recAt t) (st.recAt o) k with hcase | hcase
    · rw [hcase] at hv2
      exact hc t k v hv2
    · rw [hcase] at hv2
      exact hc o k v hv2

lemma linkOp_ok {st : RState} {i : Nat} {k : IdentifierKind} {value : Str}
    (hc : StCanon st) (hn : (normalize_value k value).isOk = true) :
    ∃ p, linkOp st i k value = .ok p := by
  obtain ⟨nv, hnv⟩ := isOk_exists hn
  unfold linkOp
  rw [hnv]
  simp only [except_bind_ok]
  split
  · exact ⟨_, rfl⟩
  next j hj =>
    split_ifs with hji
    · exact ⟨_, rfl⟩
    · obtain ⟨st1, hm⟩ := @mergeOp_ok st j i hc
      rw [hm]
      simp only [except_bind_ok]
      exact ⟨_, rfl⟩

lemma linkIf_ok {st : RState} (r : Nat) {k : IdentifierKind} {v : Option Str}
    (hc : StCanon st) (hl : LinkableVal k v) :
    ∃ p, linkIf st r k v = .ok p := by
  unfold linkIf
  split_ifs with ht
  · exact linkOp_ok hc (hl ht)
  · exact ⟨_, rfl⟩

lemma seedItem_ok {st : RState} {n : NormalizedIdentifier}
    (hn : CanonVal n.kind n.value) : ∃ st', seedItem st n = .ok st' := by
  obtain ⟨⟨st1, r1⟩, he⟩ := ensureRecord_ok (normalize_ok_of_canonVal hn)
  refine ⟨st1, ?_⟩
  unfold seedItem
  rw [he]
  rfl

lemma foldlM_seed_ok :
    ∀ (ids : List NormalizedIdentifier) {st : RState}, StCanon st →
    (∀ n ∈ ids, CanonVal n.kind n.value) →
    ∃ st', List.foldlM seedItem st ids = .ok st' := by
  intro ids
  induction ids with
  | nil =>
    intro st _ _
    exact ⟨st, rfl⟩
  | cons a l ih =>
    intro st hc hcan
    obtain ⟨st1, h1⟩ := seedItem_ok (hcan a (List.mem_cons_self a l))
    rw [List.foldlM_cons, h1]
    simp only [except_bind_ok]
    exact ih (stCanon_seedItem hc h1)
      (fun n hn => hcan n (List.mem_cons_of_mem _ hn))

lemma pass1Item_ok {st : RState} {item : Str × PmcPayload} (hc : StCanon st)
    (hk : (normalize_value .pmcid item.1).isOk = true)
    (hp : LinkableVal .pmid item.2.pmid) (hd : LinkableVal .doi item.2.doi) :
    ∃ st', pass1Item st item = .ok st' := by
  obtain ⟨⟨st1, r1⟩, he⟩ := ensureRecord_ok hk
  have hc1 : StCanon st1 := stCanon_ensureRecord hc he
  obtain ⟨⟨st2, r2⟩, hl1⟩ := linkIf_ok r1 hc1 hp
  have hc2 : StCanon st2 := stCanon_linkIf hc1 hl1
  obtain ⟨⟨st3, r3⟩, hl2⟩ := linkIf_ok r2 hc2 hd
  refine ⟨st3, ?_⟩
  unfold pass1Item
  rw [he]
  simp only [except_bind_ok]
  rw [hl1]
  simp only [except_bind_ok]
  rw [hl2]
  simp only [except_bind_ok]
  rfl

lemma foldlM_pass1_ok :
    ∀ (conv : List (Str × PmcPayload)) {st : RState}, StCanon st →
    (∀ e ∈ conv, (normalize_value .pmcid e.1).isOk = true ∧
      LinkableVal .pmid e.2.pmid ∧ LinkableVal .doi e.2.doi) →
    ∃ st', List.foldlM pass1Item st conv = .ok st' := by
  intro conv
  induction conv with
  | nil =>
    intro st _ _
    exact ⟨st, rfl⟩
  | cons a l ih =>
    intro st hc hwf
    obtain ⟨hk, hp, hd⟩ := hwf a (List.mem_cons_self a l)
    obtain ⟨st1, h1⟩ := pass1Item_ok hc hk hp hd
    rw [List.foldlM_cons, h1]
    simp only [except_bind_ok]
    exact ih (stCanon_pass1Item hc h1)
      (fun e he => hwf e (List.mem_cons_of_mem _ he))

lemma pass2Item_ok {st : RState} {item : Str × EntrezPayload} (hc : StCanon st)
    (hk : (normalize_value .pmid item.1).isOk = true)
    (hp : LinkableVal .pmcid item.2.pmcid) (hd : LinkableVal .doi item.2.doi) :
    ∃ st', pass2Item st item = .ok st' := by
  obtain ⟨⟨st1, r1⟩, he⟩ := ensureRecord_ok hk
  have hc1 : StCanon st1 := stCanon_ensureRecord hc he
  obtain ⟨⟨st2, r2⟩, hl1⟩ := linkIf_ok r1 hc1 hp
  have hc2 : StCanon st2 := stCanon_linkIf hc1 hl1
  obtain ⟨⟨st3, r3⟩, hl2⟩ := linkIf_ok r2 hc2 hd
  refine ⟨st3, ?_⟩
  unfold pass2Item
  rw [he]
  simp only [except_bind_ok]
  rw [hl1]
  simp only [except_bind_ok]
  rw [hl2]
  simp only [except_bind_ok]
  rfl

lemma foldlM_pass2_ok :
    ∀ (sums : List (Str × EntrezPayload)) {st : RState}, StCanon st →
    (∀ e ∈ sums, (normalize_value .pmid e.1).isOk = true ∧
      LinkableVal .pmcid e.2.pmcid ∧ LinkableVal .doi e.2.doi) →
    ∃ st', List.foldlM pass2Item st sums = .ok st' := by
  intro sums
  induction sums with
  | nil =>
    intro st _ _
    exact ⟨st, rfl⟩
  | cons a l ih =>
    intro st hc hwf
    obtain ⟨hk, hp, hd⟩ := hwf a (List.mem_cons_self a l)
    obtain ⟨st1, h1⟩ := pass2Item_ok hc hk hp hd
    rw [List.foldlM_cons, h1]
    simp only [except_bind_ok]
    exact ih (stCanon_pass2Item hc h1)
      (fun e he => hwf e (List.mem_cons_of_mem _ he))

lemma pass1_ok {g : Gateways} {ids : List NormalizedIdentifier} {st : RState}
    (used errs : List Str) (hc : StCanon st)
    (hwf : ∀ x conv, g.pmcConvert x = .ok conv → ∀ e ∈ conv,
      (normalize_value .pmcid e.1).isOk = true ∧
      LinkableVal .pmid e.2.pmid ∧ LinkableVal .doi e.2.doi) :
    ∃ out, pass1 g ids st used errs = .ok out := by
  unfold pass1
  dsimp only
  split_ifs with h1
  · exact ⟨_, rfl⟩
  · cases hg : g.pmcConvert (pmcidsOf ids) with
    | error e => exact ⟨_, rfl⟩
    | ok conv =>
      obtain ⟨st1, hf⟩ := foldlM_pass1_ok conv hc (hwf _ conv hg)
      dsimp only
      rw [hf]
      simp only [except_bind_ok]
      exact ⟨_, rfl⟩

lemma pass2_ok {g : Gateways} {st : RState} (used errs : List Str)
    (hc : StCanon st)
    (hwf : ∀ x sums, g.entrezFetch x = .ok sums → ∀ e ∈ sums,
      (normalize_value .pmid e.1).isOk = true ∧
      LinkableVal .pmcid e.2.pmcid ∧ LinkableVal .doi e.2.doi) :
    ∃ out, pass2 g st used errs = .ok out := by
  unfold pass2
  dsimp only
  split_ifs with h1
  · exact ⟨_, rfl⟩
  · cases hg : g.entrezFetch (pmidsOfState st) with
    | error e => exact ⟨_, rfl⟩
    | ok sums =>
      obtain ⟨st1, hf⟩ := foldlM_pass2_ok sums hc (hwf _ sums hg)
      dsimp only
      rw [hf]
      simp only [except_bind_ok]
      exact ⟨_, rfl⟩

lemma pass3Step_ok {g : Gateways} {acc : RState × List Str × List Str}
    {target : IdentifierKind × Str} (hc : StCanon acc.1)
    (ht : CanonVal target.1 target.2)
    (hwf : ∀ x d, g.semanticFetch x = .ok (some d) →
      LinkableVal .pmid d.pmid ∧ LinkableVal .pmcid d.pmcid ∧
      LinkableVal .doi d.doi) :
    ∃ out, pass3Step g acc target = .ok out := by
  obtain ⟨st, used, errors⟩ := acc
  unfold pass3Step
  dsimp only at hc ⊢
  split_ifs with h1
  · exact ⟨_, rfl⟩
  · cases hg : g.semanticFetch target.2 with
    | error e => exact ⟨_, rfl⟩
    | ok od =>
      cases od with
      | none => exact ⟨_, rfl⟩
      | some data =>
        dsimp only
        split_ifs with h2
        · exact ⟨_, rfl⟩
        · obtain ⟨hp, hpc, hd⟩ := hwf _ _ hg
          obtain ⟨⟨st1, r1⟩, he⟩ :=
            ensureRecord_ok (normalize_ok_of_canonVal ht)
          have hc1 : StCanon st1 := stCanon_ensureRecord hc he
          obtain ⟨⟨st2, r2⟩, hl1⟩ := linkIf_ok r1 hc1 hp
          have hc2 : StCanon st2 := stCanon_linkIf hc1 hl1
          obtain ⟨⟨st3, r3⟩, hl2⟩ := linkIf_ok r2 hc2 hpc
          have hc3 : StCanon st3 := stCanon_linkIf hc2 hl2
          obtain ⟨⟨st4, r4⟩, hl3⟩ := linkIf_ok r3 hc3 hd
          refine ⟨(st4, addUsed used "semantic-scholar".data, errors), ?_⟩
          rw [he]
          simp only [except_bind_ok]
          rw [hl1]
          simp only [except_bind_ok]
          rw [hl2]
          simp only [except_bind_ok]
          rw [hl3]
          simp only [except_bind_ok]

lemma foldlM_pass3_ok {g : Gateways}
    (hwf : ∀ x d, g.semanticFetch x = .ok (some d) →
      LinkableVal .pmid d.pmid ∧ LinkableVal .pmcid d.pmcid ∧
      LinkableVal .doi d.doi) :
    ∀ (ts : List (IdentifierKind × Str)) (acc : RState × List Str × List Str),
    StCanon acc.1 → (∀ t ∈ ts, CanonVal t.1 t.2) →
    ∃ out, List.foldlM (pass3Step g) acc ts = .ok out := by
  intro ts
  induction ts with
  | nil =>
    intro acc _ _
    exact ⟨acc, rfl⟩
  | cons a l ih =>
    intro acc hc hcan
    obtain ⟨acc1, h1⟩ := pass3Step_ok hc (hcan a (List.mem_cons_self a l)) hwf
    rw [List.foldlM_cons, h1]
    simp only [except_bind_ok]
    exact ih acc1 (stCanon_pass3Step hc h1)
      (fun t ht => hcan t (List.mem_cons_of_mem _ ht))

lemma mem_eraseDups_loop {α : Type} [BEq α] (x : α) :
    ∀ (l acc : List α), x ∈ List.eraseDups.loop l acc → x ∈ acc ∨ x ∈ l := by
  intro l
  induction l with
  | nil =>
    intro acc h
    rw [List.eraseDups.loop] at h
    exact Or.inl (List.mem_reverse.mp h)
  | cons a t ih =>
    intro acc h
    rw [List.eraseDups.loop] at h
    split at h
    · rcases ih acc h with h1 | h1
      · exact Or.inl h1
      · exact Or.inr (List.mem_cons_of_mem _ h1)
    · rcases ih (a :: acc) h with h1 | h1
      · rcases List.mem_cons.mp h1 with h2 | h2
        · exact Or.inr (h2 ▸ List.mem_cons_self _ _)
        · exact Or.inl h2
      · exact Or.inr (List.mem_cons_of_mem _ h1)

lemma mem_of_mem_eraseDups {α : Type} [BEq α] {x : α} {l : List α}
    (h : x ∈ l.eraseDups) : x ∈ l := by
  rw [List.eraseDups] at h
  rcases mem_eraseDups_loop x l [] h with h1 | h1
  · cases h1
  · exact h1

/-- Every Semantic Scholar query target of a canonical state carries a
canonical value. -/
lemma semanticTargetsOf_canonical {st : RState} (hc : StCanon st) :
    ∀ t ∈ semanticTargetsOf st, CanonVal t.1 t.2 := by
  intro t ht
  unfold semanticTargetsOf at ht
  dsimp only at ht
  have ht2 :=
    mem_of_mem_eraseDups ((List.perm_insertionSort _ _).mem_iff.mp ht)
  rcases List.mem_append.mp ht2 with hm | hm
  · obtain ⟨i, hi, heq⟩ := List.mem_filterMap.mp hm
    cases hp : (st.recAt i).pmid with
    | none =>
      rw [hp] at heq
      cases heq
    | some v =>
      rw [hp] at heq
      dsimp only at heq
      split_ifs at heq
      injection heq with heq
      rw [← heq]
      exact hc i .pmid v hp
  · obtain ⟨i, hi, heq⟩ := List.mem_filterMap.mp hm
    cases hp : (st.recAt i).doi with
    | none =>
      rw [hp] at heq
      cases heq
    | some v =>
      rw [hp] at heq
      dsimp only at heq
      split_ifs at heq
      injection heq with heq
      rw [← heq]
      exact hc i .doi v hp

/-- Under well-formed gateways and canonical input identifiers, `resolve`
always returns a result, whatever combination of calls fails. -/
lemma resolve_ok {g : Gateways} {ids : List NormalizedIdentifier}
    (hids : ∀ n ∈ ids, CanonVal n.kind n.value) (hwf : WFGateways g) :
    ∃ r, resolve g ids = .ok r := by
  obtain ⟨hwf1, hwf2, hwf3⟩ := hwf
  obtain ⟨st0, h0⟩ := foldlM_seed_ok ids stCanon_empty hids
  have hc0 : StCanon st0 := stCanon_foldlM_seed ids stCanon_empty h0
  obtain ⟨⟨st1, used1, errs1⟩, h1⟩ := pass1_ok [] [] hc0 hwf1
  have hc1 : StCanon st1 := stCanon_pass1 hc0 h1
  obtain ⟨⟨st2, used2, errs2⟩, h2⟩ := pass2_ok used1 errs1 hc1 hwf2
  have hc2 : StCanon st2 := stCanon_pass2 hc1 h2
  obtain ⟨⟨st3, used3, errs3⟩, h3⟩ := foldlM_pass3_ok hwf3
    (semanticTargetsOf st2) (st2, used2, errs2) hc2
    (semanticTargetsOf_canonical hc2)
  refine ⟨⟨st3.live.map st3.recAt, used3, errs3⟩, ?_⟩
  unfold resolve seedState
  rw [h0]
  simp only [except_bind_ok]
  rw [h1]
  simp only [except_bind_ok]
  rw [h2]
  simp only [except_bind_ok]
  rw [h3]
  simp only [except_bind_ok]

/-- A failing PMC conversion call is caught: only the message is appended. -/
lemma pass1_error {g : Gateways} {ids : List NormalizedIdentifier}
    (st : RState) (used errs : List Str) {e : Str}
    (hne : (pmcidsOf ids).isEmpty = false)
    (hg : g.pmcConvert (pmcidsOf ids) = .error e) :
    pass1 g ids st used errs = .ok (st, used, errs ++ [e]) := by
  unfold pass1
  dsimp only
  split_ifs with h1
  · rw [h1] at hne
    cases hne
  · rw [hg]

/-- A failing Entrez summary call is caught: only the message is appended. -/
lemma pass2_error {g : Gateways} {st : RState} (used errs : List Str)
    {e : Str} (hne : (pmidsOfState st).isEmpty = false)
    (hg : g.entrezFetch (pmidsOfState st) = .error e) :
    pass2 g st used errs = .ok (st, used, errs ++ [e]) := by
  unfold pass2
  dsimp only
  split_ifs with h1
  · rw [h1] at hne
    cases hne
  · rw [hg]

/-- A failing Semantic Scholar call is caught: only the message is appended,
so the remaining per-pair iterations continue from the same state. -/
lemma pass3Step_error {g : Gateways} (acc : RState × List Str × List Str)
    {t : IdentifierKind × Str} {e : Str} (hne : t.2.isEmpty = false)
    (hg : g.semanticFetch t.2 = .error e) :
    pass3Step g acc t = .ok (acc.1, acc.2.1, acc.2.2 ++ [e]) := by
  obtain ⟨st, used, errors⟩ := acc
  unfold pass3Step
  dsimp only
  split_ifs with h1
  · rw [h1] at hne
    cases hne
  · rw [hg]

/-- **C7.** `resolve` never raises for a gateway failure: under well-formed
gateway successes (and canonical input identifiers) it always returns a
result, whatever combination of PMC, Entrez, or Semantic Scholar calls
fails; and each failing gateway call is caught, its message appended to the
error list, with the state and used-source set unchanged, so the remaining
passes and the remaining per-pair Semantic Scholar calls proceed
unaffected. -/
theorem claim_C7_gateway_failure_tolerance
    (g : Gateways) (ids : List NormalizedIdentifier)
    (hids : ∀ n ∈ ids, CanonVal n.kind n.value) (hwf : WFGateways g) :
    (∃ r, resolve g ids = .ok r) ∧
    (∀ st used errs e, (pmcidsOf ids).isEmpty = false →
      g.pmcConvert (pmcidsOf ids) = .error e →
      pass1 g ids st used errs = .ok (st, used, errs ++ [e])) ∧
    (∀ st used errs e, (pmidsOfState st).isEmpty = false →
      g.entrezFetch (pmidsOfState st) = .error e →
      pass2 g st used errs = .ok (st, used, errs ++ [e])) ∧
    (∀ acc t e, t.2.isEmpty = false → g.semanticFetch t.2 = .error e →
      pass3Step g acc t = .ok (acc.1, acc.2.1, acc.2.2 ++ [e])) := by
  refine ⟨resolve_ok hids hwf, ?_, ?_, ?_⟩
  · intro st used errs e hne hg
    exact pass1_error st used errs hne hg
  · intro st used errs e hne hg
    exact pass2_error used errs hne hg
  · intro acc t e hne hg
    exact pass3Step_error acc hne hg

/-- Gateways whose calls all fail with a source error. -/
def c7Gateways : Gateways :=
  ⟨fun _ => .error "PMC lookup failed: service unavailable".data,
   fun _ => .error "Entrez lookup failed: service unavailable".data,
   fun _ => .error "Semantic Scholar lookup failed: timeout".data⟩

lemma c7Gateways_wf : WFGateways c7Gateways := by
  unfold WFGateways
  exact ⟨(fun x conv h => nomatch h), (fun x s h => nomatch h),
    (fun x d h => nomatch h)⟩

/-- Witness for C7 at the all-failing gateways and one canonical PMID. -/
theorem claim_C7_gateway_failure_tolerance_witness :
    (∃ r, resolve c7Gateways [⟨.pmid, "12".data, "12".data⟩] = .ok r) ∧
    (∀ st used errs e,
      (pmcidsOf [⟨.pmid, "12".data, "12".data⟩]).isEmpty = false →
      c7Gateways.pmcConvert
        (pmcidsOf [⟨.pmid, "12".data, "12".data⟩]) = .error e →
      pass1 c7Gateways [⟨.pmid, "12".data, "12".data⟩] st used errs =
        .ok (st, used, errs ++ [e])) ∧
    (∀ st used errs e, (pmidsOfState st).isEmpty = false →
      c7Gateways.entrezFetch (pmidsOfState st) = .error e →
      pass2 c7Gateways st used errs = .ok (st, used, errs ++ [e])) ∧
    (∀ acc t e, t.2.isEmpty = false →
      c7Gateways.semanticFetch t.2 = .error e →
      pass3Step c7Gateways acc t =
        .ok (acc.1, acc.2.1, acc.2.2 ++ [e])) :=
  claim_C7_gateway_failure_tolerance c7Gateways
    [⟨.pmid, "12".data, "12".data⟩]
    (by
      intro n hn
      rw [List.mem_singleton.mp hn]
      exact (by decide : isdigitStr "12".data = true))
    c7Gateways_wf

/-! ### The amended used-source recording discipline (C8) -/

lemma mem_addUsed_self (used : List Str) (s : Str) : s ∈ addUsed used s := by
  unfold addUsed
  split_ifs with h
  · simpa using h
  · exact List.mem_append.mpr (Or.inr (List.mem_singleton.mpr rfl))

/-- pass1 records `"pmc"` exactly when the successful conversion mapping is
non-empty. -/
lemma pass1_used {g : Gateways} {ids : List NormalizedIdentifier}
    {st : RState} {used errs : List Str} {out : RState × List Str × List Str}
    {conv : List (Str × PmcPayload)}
    (hne : (pmcidsOf ids).isEmpty = false)
    (hg : g.pmcConvert (pmcidsOf ids) = .ok conv)
    (h : pass1 g ids st used errs = .ok out) :
    (conv.isEmpty = false → "pmc".data ∈ out.2.1) ∧
    (conv.isEmpty = true → out.2.1 = used) := by
  unfold pass1 at h
  dsimp only at h
  split_ifs at h with h1
  · rw [h1] at hne
    cases hne
  · rw [hg] at h
    dsimp only at h
    obtain ⟨st1, hf, h2⟩ := except_bind_ok_inv h
    cases h2
    constructor
    · intro hce
      simp only [hce, Bool.false_eq_true, if_false]
      exact mem_addUsed_self used _
    · intro hce
      simp only [hce, if_true]

/-- pass2 records `"entrez"` exactly when the successful summary mapping is
non-empty. -/
lemma pass2_used {g : Gateways} {st : RState} {used errs : List Str}
    {out : RState × List Str × List Str} {sums : List (Str × EntrezPayload)}
    (hne : (pmidsOfState st).isEmpty = false)
    (hg : g.entrezFetch (pmidsOfState st) = .ok sums)
    (h : pass2 g st used errs = .ok out) :
    (sums.isEmpty = false → "entrez".data ∈ out.2.1) ∧
    (sums.isEmpty = true → out.2.1 = used) := by
  unfold pass2 at h
  dsimp only at h
  split_ifs at h with h1
  · rw [h1] at hne
    cases hne
  · rw [hg] at h
    dsimp only at h
    obtain ⟨st1, hf, h2⟩ := except_bind_ok_inv h
    cases h2
    constructor
    · intro hce
      simp only [hce, Bool.false_eq_true, if_false]
      exact mem_addUsed_self used _
    · intro hce
      simp only [hce, if_true]

/-- A per-pair Semantic Scholar success records `"semantic-scholar"` exactly
when the payload is non-null and truthy. -/
lemma pass3Step_used {g : Gateways} {acc out : RState × List Str × List Str}
    {t : IdentifierKind × Str} {data : SemPayload}
    (hne : t.2.isEmpty = false)
    (hg : g.semanticFetch t.2 = .ok (some data))
    (h : pass3Step g acc t = .ok out) :
    (semTruthy data = true → "semantic-scholar".data ∈ out.2.1) ∧
    (semTruthy data = false → out.2.1 = acc.2.1) := by
  obtain ⟨st, used, errors⟩ := acc
  unfold pass3Step at h
  dsimp only at h
  split_ifs at h with h1
  · rw [h1] at hne
    cases hne
  · rw [hg] at h
    dsimp only at h
    split_ifs at h with h2
    · cases h
      constructor
      · intro htr
        rw [htr] at h2
        simp at h2
      · intro _
        rfl
    · obtain ⟨⟨st1, r1⟩, he, h⟩ := except_bind_ok_inv h
      dsimp only at h
      obtain ⟨⟨st2, r2⟩, hl1, h⟩ := except_bind_ok_inv h
      dsimp only at h
      obtain ⟨⟨st3, r3⟩, hl2, h⟩ := except_bind_ok_inv h
      dsimp only at h
      obtain ⟨⟨st4, r4⟩, hl3, h⟩ := except_bind_ok_inv h
      dsimp only at h
      cases h
      constructor
      · intro _
        exact mem_addUsed_self used _
      · intro hfa
        rw [hfa] at h2
        exact absurd rfl h2

/-- A per-pair Semantic Scholar success with a null payload records
nothing. -/
lemma pass3Step_used_none {g : Gateways} {acc out : RState × List Str × List Str}
    {t : IdentifierKind × Str} (hne : t.2.isEmpty = false)
    (hg : g.semanticFetch t.2 = .ok none)
    (h : pass3Step g acc t = .ok out) : out.2.1 = acc.2.1 := by
  obtain ⟨st, used, errors⟩ := acc
  unfold pass3Step at h
  dsimp only at h
  split_ifs at h with h1
  · rw [h1] at hne
    cases hne
  · rw [hg] at h
    dsimp only at h
    cases h
    rfl

/-- **C8 (amended).** A successful gateway call is recorded in
`sources_used` only when its payload is truthy: pass1 records `"pmc"`
exactly when the conversion mapping is non-empty, pass2 records `"entrez"`
exactly when the summary mapping is non-empty, and the per-pair Semantic
Scholar pass records `"semantic-scholar"` exactly when the returned payload
is non-null and has at least one key; a successful call returning an empty
mapping or a null payload leaves `sources_used` unchanged. -/
theorem claim_C8_used_source_recording_amended (g : Gateways) :
    (∀ ids st used errs out conv, (pmcidsOf ids).isEmpty = false →
      g.pmcConvert (pmcidsOf ids) = .ok conv →
      pass1 g ids st used errs = .ok out →
      (conv.isEmpty = false → "pmc".data ∈ out.2.1) ∧
      (conv.isEmpty = true → out.2.1 = used)) ∧
    (∀ st used errs out sums, (pmidsOfState st).isEmpty = false →
      g.entrezFetch (pmidsOfState st) = .ok sums →
      pass2 g st used errs = .ok out →
      (sums.isEmpty = false → "entrez".data ∈ out.2.1) ∧
      (sums.isEmpty = true → out.2.1 = used)) ∧
    (∀ acc t out data, t.2.isEmpty = false →
      g.semanticFetch t.2 = .ok (some data) →
      pass3Step g acc t = .ok out →
      (semTruthy data = true → "semantic-scholar".data ∈ out.2.1) ∧
      (semTruthy data = false → out.2.1 = acc.2.1)) ∧
    (∀ acc t out, t.2.isEmpty = false → g.semanticFetch t.2 = .ok none →
      pass3Step g acc t = .ok out → out.2.1 = acc.2.1) := by
  refine ⟨?_, ?_, ?_, ?_⟩
  · intro ids st used errs out conv hne hg h
    exact pass1_used hne hg h
  · intro st used errs out sums hne hg h
    exact pass2_used hne hg h
  · intro acc t out data hne hg h
    exact pass3Step_used hne hg h
  · intro acc t out hne hg h
    exact pass3Step_used_none hne hg h

/-- Gateways whose calls all succeed with non-empty payloads. -/
def c8aGateways : Gateways :=
  ⟨fun _ => .ok [("PMC3".data, ⟨some "30".data, none⟩)],
   fun _ => .ok [("30".data, ⟨some "PMC3".data, none⟩)],
   fun _ => .ok (some ⟨some "30".data, none, none⟩)⟩

/-- Witness for the amended C8 at a concrete set of gateways. -/
theorem claim_C8_used_source_recording_amended_witness :
    (∀ ids st used errs out conv, (pmcidsOf ids).isEmpty = false →
      c8aGateways.pmcConvert (pmcidsOf ids) = .ok conv →
      pass1 c8aGateways ids st used errs = .ok out →
      (conv.isEmpty = false → "pmc".data ∈ out.2.1) ∧
      (conv.isEmpty = true → out.2.1 = used)) ∧
    (∀ st used errs out sums, (pmidsOfState st).isEmpty = false →
      c8aGateways.entrezFetch (pmidsOfState st) = .ok sums →
      pass2 c8aGateways st used errs = .ok out →
      (sums.isEmpty = false → "entrez".data ∈ out.2.1) ∧
      (sums.isEmpty = true → out.2.1 = used)) ∧
    (∀ acc t out data, t.2.isEmpty = false →
      c8aGateways.semanticFetch t.2 = .ok (some data) →
      pass3Step c8aGateways acc t = .ok out →
      (semTruthy data = true → "semantic-scholar".data ∈ out.2.1) ∧
      (semTruthy data = false → out.2.1 = acc.2.1)) ∧
    (∀ acc t out, t.2.isEmpty = false →
      c8aGateways.semanticFetch t.2 = .ok none →
      pass3Step c8aGateways acc t = .ok out → out.2.1 = acc.2.1) :=
  claim_C8_used_source_recording_amended c8aGateways

/-- Gateways whose calls all succeed with empty payloads. -/
def c10Gateways : Gateways :=
  ⟨fun _ => .ok [], fun _ => .ok [], fun _ => .ok none⟩

def c10FsRows : Str → List JsonRow := fun _ => [⟨some "7".data, none, none⟩]

/-- Witness for C10 at one concrete resolve run (and one concrete merge
run), evaluated at the single record the run returns. -/
theorem claim_C10_canonical_fields_witness :
    (∀ v, (⟨some "1".data, none, none⟩ : ResolvedRecord).pmid = some v →
      isdigitStr v = true) ∧
    (∀ v, (⟨some "1".data, none, none⟩ : ResolvedRecord).pmcid = some v →
      ∃ ds, v = "PMC".data ++ ds ∧ isdigitStr ds = true) ∧
    (∀ v, (⟨some "1".data, none, none⟩ : ResolvedRecord).doi = some v →
      v.contains '/' = true ∧ lowerStr v = v) :=
  @claim_C10_canonical_fields c10Gateways [⟨.pmid, "1".data, "1".data⟩]
    ⟨[⟨some "1".data, none, none⟩], [], []⟩ id c10FsRows (fun _ => "B".data)
    ["a".data] ⟨[⟨some "7".data, none, none⟩], "B".data, ["a".data], []⟩
    (by decide) (by decide) ⟨some "1".data, none, none⟩
    (Or.inl (List.mem_singleton.mpr rfl))

end CurateNSPond